import Mathlib

/-!
Verification of the turbo-geth block-witness engine (trie/proof_generator.go,
trie/resolver.go, core/types/accounts/account.go) against its specification.

Bytes are modelled as `Nat` values in the range [0, 256); byte strings as
`List Nat`.  Go's machine integers (uint8/uint32/uint64) never overflow in the
modelled code paths, so they are modelled as `Nat` directly.
-/

namespace TG

set_option maxHeartbeats 1000000

/-! ## Byte-string primitives -/

/-- Big-endian value of a byte string (most significant byte first). -/
def beToNat : List Nat → Nat
  | [] => 0
  | b :: rest => b * 256 ^ rest.length + beToNat rest

/-- Minimal big-endian byte string of `n` (empty for zero), computed with a
fuel argument so that the definition is structurally recursive.  With
`fuel ≥ n` the fuel never runs out. -/
def natToBEAux : Nat → Nat → List Nat
  | _, 0 => []
  | 0, _ + 1 => []
  | fuel + 1, n + 1 => natToBEAux fuel ((n + 1) / 256) ++ [(n + 1) % 256]

/-- Minimal big-endian byte string of `n`: the form produced by Go's
`big.Int.Bytes()` and used by the RLP integer encoding. -/
def natToBE (n : Nat) : List Nat := natToBEAux n n

/-- Number of leading bytes shared by two byte strings (Go `prefixLen`). -/
def commonPrefixLen : List Nat → List Nat → Nat
  | a :: x, b :: y => if a = b then commonPrefixLen x y + 1 else 0
  | _, _ => 0

/-- Go `bytes.Compare`: lexicographic byte-wise comparison, a strict
initial segment compares as smaller. -/
def listCompare : List Nat → List Nat → Int
  | [], [] => 0
  | [], _ :: _ => -1
  | _ :: _, [] => 1
  | a :: x, b :: y => if a < b then -1 else if b < a then 1 else listCompare x y

/-- Strict lexicographic byte-wise order on byte strings, as a Boolean. -/
def lexLt : List Nat → List Nat → Bool
  | [], [] => false
  | [], _ :: _ => true
  | _ :: _, [] => false
  | a :: x, b :: y => if a < b then true else if b < a then false else lexLt x y

/-! ## RLP (recursive length prefix) encoding and decoding

The `rlp` package of the repository is not part of the extracted sources;
its encoding rules are modelled from the spec (§4.A): single byte < 0x80
inline; short string of up to 55 bytes with a one-byte header; long string
with a length-of-length header; list forms likewise; integers big-endian
without leading zeros, zero being the empty string. -/

/-- RLP encoding of a byte string. -/
def rlpStr (s : List Nat) : List Nat :=
  if s.length = 1 ∧ s.headD 0 < 128 then s
  else if s.length ≤ 55 then (128 + s.length) :: s
  else (183 + (natToBE s.length).length) :: (natToBE s.length ++ s)

/-- RLP encoding of a non-negative integer: the minimal big-endian byte
string, encoded as an RLP string. -/
def rlpNat (n : Nat) : List Nat := rlpStr (natToBE n)

/-- RLP list framing of an already-encoded payload. -/
def rlpListPayload (payload : List Nat) : List Nat :=
  if payload.length ≤ 55 then (192 + payload.length) :: payload
  else (247 + (natToBE payload.length).length) :: (natToBE payload.length ++ payload)

/-- RLP decode errors, mirroring the error conditions of the Go `rlp`
package that the modelled code can observe.  The constructor
`listTooManyAccountWithoutStorage` models the exact error value
`"rlp: input list has too many elements for accounts.accountWithoutStorage"`
that `Account.Decode` compares against. -/
inductive RlpErr where
  | tooShort
  | nonCanonicalSize
  | nonCanonicalInt
  | expectedString
  | expectedList
  | uintOverflow
  | badHashLen
  | trailingBytes
  | listTooManyExtAccount
  | listTooManyAccountWithoutStorage
  | listTooManyAccount
  deriving Repr, DecidableEq

/-- Decode one RLP string item from the front of `input`, returning its
content and the unconsumed tail. -/
def rlpDecStr (input : List Nat) : Except RlpErr (List Nat × List Nat) :=
  match input with
  | [] => .error .tooShort
  | b :: rest =>
    if b < 128 then .ok ([b], rest)
    else if b ≤ 183 then
      let len := b - 128
      if rest.length < len then .error .tooShort
      else if len = 1 ∧ rest.headD 0 < 128 then .error .nonCanonicalSize
      else .ok (rest.take len, rest.drop len)
    else if b ≤ 191 then
      let ll := b - 183
      if rest.length < ll then .error .tooShort
      else
        let lenBytes := rest.take ll
        if lenBytes.headD 0 = 0 then .error .nonCanonicalSize
        else
          let len := beToNat lenBytes
          if len ≤ 55 then .error .nonCanonicalSize
          else if (rest.drop ll).length < len then .error .tooShort
          else .ok ((rest.drop ll).take len, (rest.drop ll).drop len)
    else .error .expectedString

/-- Decode one RLP list item from the front of `input`, returning its
payload and the unconsumed tail. -/
def rlpDecList (input : List Nat) : Except RlpErr (List Nat × List Nat) :=
  match input with
  | [] => .error .tooShort
  | b :: rest =>
    if b < 192 then .error .expectedList
    else if b ≤ 247 then
      let len := b - 192
      if rest.length < len then .error .tooShort
      else .ok (rest.take len, rest.drop len)
    else
      let ll := b - 247
      if rest.length < ll then .error .tooShort
      else
        let lenBytes := rest.take ll
        if lenBytes.headD 0 = 0 then .error .nonCanonicalSize
        else
          let len := beToNat lenBytes
          if len ≤ 55 then .error .nonCanonicalSize
          else if (rest.drop ll).length < len then .error .tooShort
          else .ok ((rest.drop ll).take len, (rest.drop ll).drop len)

/-- Decode an RLP unsigned integer (arbitrary size, used for `big.Int`
fields): a string with no leading zero byte. -/
def rlpDecNat (input : List Nat) : Except RlpErr (Nat × List Nat) :=
  match rlpDecStr input with
  | .error e => .error e
  | .ok (content, rest) =>
    if content.headD 1 = 0 then .error .nonCanonicalInt
    else .ok (beToNat content, rest)

/-- Decode an RLP `uint64` field: at most eight content bytes. -/
def rlpDecUint64 (input : List Nat) : Except RlpErr (Nat × List Nat) :=
  match rlpDecStr input with
  | .error e => .error e
  | .ok (content, rest) =>
    if content.headD 1 = 0 then .error .nonCanonicalInt
    else if 8 < content.length then .error .uintOverflow
    else .ok (beToNat content, rest)

/-- Decode an RLP `common.Hash` field: a string of exactly 32 bytes. -/
def rlpDecHash (input : List Nat) : Except RlpErr (List Nat × List Nat) :=
  match rlpDecStr input with
  | .error e => .error e
  | .ok (content, rest) =>
    if content.length = 32 then .ok (content, rest) else .error .badHashLen

/-! ## The accounts codec (core/types/accounts/account.go) -/

/-- The well-known hash of empty code, `Keccak256([])`; the constant is
given in the spec (§6). -/
def emptyCodeHashBytes : List Nat :=
  [0xc5, 0xd2, 0x46, 0x01, 0x86, 0xf7, 0x23, 0x3c, 0x92, 0x7e, 0x7d, 0xb2,
   0xdc, 0xc7, 0x03, 0xc0, 0xe5, 0x00, 0xb6, 0x53, 0xca, 0x82, 0x27, 0x3b,
   0x7b, 0xfa, 0xd8, 0x04, 0x5d, 0x85, 0xa4, 0x70]

/-- The well-known empty-trie root, `Keccak256(RLP(""))`; the hex literal
is taken from `account.go`. -/
def emptyRootBytes : List Nat :=
  [0x56, 0xe8, 0x1f, 0x17, 0x1b, 0xcc, 0x55, 0xa6, 0xff, 0x83, 0x45, 0xe6,
   0x92, 0xc0, 0xf8, 0x6e, 0x5b, 0x48, 0xe0, 0x1b, 0x99, 0x6c, 0xad, 0xc0,
   0x01, 0x62, 0x2f, 0xb5, 0xe3, 0x63, 0xb4, 0x21]

/-- The all-zero `common.Hash{}` value. -/
def zeroHash32 : List Nat := List.replicate 32 0

/-- `accounts.Account`.  `Balance : Option Nat` models the `*big.Int`
pointer (`none` = Go `nil`); `CodeHash : Option (List Nat)` models the
`[]byte` slice (`none` = Go `nil`); `StorageSize : Option Nat` models the
`*uint64` pointer. -/
structure Account where
  Nonce : Nat
  Balance : Option Nat
  Root : List Nat
  CodeHash : Option (List Nat)
  StorageSize : Option Nat
  deriving Repr, DecidableEq

/-- `Account.IsEmptyCodeHash`: the code hash is `nil` or byte-equal to the
empty-code hash (`bytes.Equal` on a `nil` slice compares it as empty). -/
def Account.IsEmptyCodeHash (a : Account) : Bool :=
  match a.CodeHash with
  | none => true
  | some l => l = emptyCodeHashBytes

/-- `Account.IsEmptyRoot`: the root equals the empty-trie root or the
all-zero hash. -/
def Account.IsEmptyRoot (a : Account) : Bool :=
  a.Root = emptyRootBytes ∨ a.Root = zeroHash32

/-- Go panics modelled as explicit errors: `(*big.Int).Set(nil)` inside
`fill`/`ExtAccount.fill` dereferences a nil pointer. -/
inductive GoPanic where
  | nilBalance
  deriving Repr, DecidableEq

/-- RLP encoding of the `ExtAccount` struct `{Nonce, Balance}`. -/
def rlpExtAccount (nonce balance : Nat) : List Nat :=
  rlpListPayload (rlpNat nonce ++ rlpNat balance)

/-- RLP encoding of the four-field account struct
`{Nonce, Balance, Root, CodeHash}` (`accountWithoutStorage`, and likewise
the `trie.Account` struct used by the resolver). -/
def rlpAccount4 (nonce balance : Nat) (root codeHash : List Nat) : List Nat :=
  rlpListPayload (rlpNat nonce ++ rlpNat balance ++ rlpStr root ++ rlpStr codeHash)

/-- RLP encoding of the five-field `Account` struct including
`StorageSize`. -/
def rlpAccount5 (nonce balance : Nat) (root codeHash : List Nat) (ss : Nat) : List Nat :=
  rlpListPayload (rlpNat nonce ++ rlpNat balance ++ rlpStr root ++ rlpStr codeHash ++ rlpNat ss)

/-- `Account.Encode`.  The first branch returns the one-byte encoding
`0xC0` for a canonically empty account; the second encodes an
`ExtAccount`; otherwise the full account is encoded after
`newAccountCopy` has replaced an empty root/code hash by the canonical
constants. -/
def Account.Encode (a : Account) (enableStorageSize : Bool) : Except GoPanic (List Nat) :=
  if a.IsEmptyCodeHash ∧ a.IsEmptyRoot then
    if (a.Balance = none ∨ a.Balance = some 0) ∧ a.Nonce = 0 then
      .ok [192]
    else
      match a.Balance with
      | none => .error .nilBalance
      | some b => .ok (rlpExtAccount a.Nonce b)
  else
    match a.Balance with
    | none => .error .nilBalance
    | some b =>
      let root := if a.IsEmptyRoot then emptyRootBytes else a.Root
      let ch := if a.IsEmptyCodeHash then emptyCodeHashBytes else a.CodeHash.getD []
      match enableStorageSize, a.StorageSize with
      | true, some ss => .ok (rlpAccount5 a.Nonce b root ch ss)
      | _, _ => .ok (rlpAccount4 a.Nonce b root ch)

/-- Decode the RLP of an `ExtAccount` struct. -/
def rlpDecExtAccount (enc : List Nat) : Except RlpErr (Nat × Nat) :=
  match rlpDecList enc with
  | .error e => .error e
  | .ok (payload, rest) =>
    if rest ≠ [] then .error .trailingBytes
    else
      match rlpDecUint64 payload with
      | .error e => .error e
      | .ok (nonce, r1) =>
        match rlpDecNat r1 with
        | .error e => .error e
        | .ok (balance, r2) =>
          if r2 ≠ [] then .error .listTooManyExtAccount
          else .ok (nonce, balance)

/-- Decode the RLP of an `accountWithoutStorage` struct. -/
def rlpDecAccount4 (enc : List Nat) : Except RlpErr (Nat × Nat × List Nat × List Nat) :=
  match rlpDecList enc with
  | .error e => .error e
  | .ok (payload, rest) =>
    if rest ≠ [] then .error .trailingBytes
    else
      match rlpDecUint64 payload with
      | .error e => .error e
      | .ok (nonce, r1) =>
        match rlpDecNat r1 with
        | .error e => .error e
        | .ok (balance, r2) =>
          match rlpDecHash r2 with
          | .error e => .error e
          | .ok (root, r3) =>
            match rlpDecStr r3 with
            | .error e => .error e
            | .ok (ch, r4) =>
              if r4 ≠ [] then .error .listTooManyAccountWithoutStorage
              else .ok (nonce, balance, root, ch)

/-- Decode the RLP of the five-field `Account` struct. -/
def rlpDecAccount5 (enc : List Nat) : Except RlpErr (Nat × Nat × List Nat × List Nat × Nat) :=
  match rlpDecList enc with
  | .error e => .error e
  | .ok (payload, rest) =>
    if rest ≠ [] then .error .trailingBytes
    else
      match rlpDecUint64 payload with
      | .error e => .error e
      | .ok (nonce, r1) =>
        match rlpDecNat r1 with
        | .error e => .error e
        | .ok (balance, r2) =>
          match rlpDecHash r2 with
          | .error e => .error e
          | .ok (root, r3) =>
            match rlpDecStr r3 with
            | .error e => .error e
            | .ok (ch, r4) =>
              match rlpDecUint64 r4 with
              | .error e => .error e
              | .ok (ss, r5) =>
                if r5 ≠ [] then .error .listTooManyAccount
                else .ok (nonce, balance, root, ch, ss)

/-- `Account.Decode` (the method): dispatch on the encoded length.  Zero
length leaves the receiver untouched; length one yields the empty
account; length below 60 decodes an `ExtAccount`; otherwise the
four-field struct is tried first, falling back to the five-field struct
exactly when the four-field decode failed with the "too many elements"
error. -/
def Account.Decode (a : Account) (enc : List Nat) : Except RlpErr Account :=
  if enc.length = 0 then .ok a
  else if enc.length = 1 then
    .ok { a with Balance := some 0, CodeHash := some emptyCodeHashBytes, Root := emptyRootBytes }
  else if enc.length < 60 then
    match rlpDecExtAccount enc with
    | .error e => .error e
    | .ok (nonce, balance) =>
      .ok { a with Nonce := nonce, Balance := some balance,
                   CodeHash := some emptyCodeHashBytes, Root := emptyRootBytes }
  else
    match rlpDecAccount4 enc with
    | .ok (nonce, balance, root, ch) =>
      .ok { Nonce := nonce, Balance := some balance, Root := root,
            CodeHash := some ch, StorageSize := none }
    | .error e =>
      if e ≠ .listTooManyAccountWithoutStorage then .error e
      else
        match rlpDecAccount5 enc with
        | .error e2 => .error e2
        | .ok (nonce, balance, root, ch, ss) =>
          .ok { a with Nonce := nonce, Balance := some balance, Root := root,
                       CodeHash := some ch, StorageSize := some ss }

/-- `new(Account)`: the Go zero value of the struct. -/
def zeroAccount : Account :=
  { Nonce := 0, Balance := none, Root := zeroHash32, CodeHash := none, StorageSize := none }

/-- The package-level `accounts.Decode`: `nil, nil` for empty input,
otherwise the method on a fresh account. -/
def accountsDecode (enc : List Nat) : Except RlpErr (Option Account) :=
  if enc.length = 0 then .ok none
  else
    match Account.Decode zeroAccount enc with
    | .error e => .error e
    | .ok a => .ok (some a)

/-! ## CBOR encoding and header decoding

The witness tapes are streams of CBOR items produced through the external
`ugorji/go/codec` library; the item formats are modelled from the spec
(§4.G, §6): unsigned integers, byte strings, text strings and, for the
serialization header, a canonical map whose keys are sorted. -/

/-- `natToBE n` left-padded with zero bytes to exactly `k` bytes. -/
def bePad (k n : Nat) : List Nat :=
  List.replicate (k - (natToBE n).length) 0 ++ natToBE n

/-- CBOR head for a major type and argument value, using the shortest
argument form. -/
def cborHead (major n : Nat) : List Nat :=
  if n < 24 then [32 * major + n]
  else if n < 2 ^ 8 then [32 * major + 24, n]
  else if n < 2 ^ 16 then (32 * major + 25) :: bePad 2 n
  else if n < 2 ^ 32 then (32 * major + 26) :: bePad 4 n
  else (32 * major + 27) :: bePad 8 n

/-- CBOR unsigned integer (major type 0). -/
def cborUInt (n : Nat) : List Nat := cborHead 0 n

/-- CBOR byte string (major type 2). -/
def cborBytes (b : List Nat) : List Nat := cborHead 2 b.length ++ b

/-- CBOR text string (major type 3); the argument is the UTF-8 bytes. -/
def cborText (t : List Nat) : List Nat := cborHead 3 t.length ++ t

/-- Insert an entry into a list of entries sorted by key. -/
def insertEntry (p : List Nat × Nat) : List (List Nat × Nat) → List (List Nat × Nat)
  | [] => [p]
  | q :: t => if lexLt p.1 q.1 then p :: q :: t else q :: insertEntry p t

/-- Sort map entries by key (insertion sort, byte-wise lexicographic). -/
def sortEntries (l : List (List Nat × Nat)) : List (List Nat × Nat) :=
  l.foldr insertEntry []

/-- Canonical CBOR map (major type 5) from text keys to unsigned
integers: the entries are emitted sorted by key, modelling the
`Canonical` encode option used by `WriteTo`. -/
def cborMapCanon (entries : List (List Nat × Nat)) : List Nat :=
  cborHead 5 entries.length ++
    (sortEntries entries).foldr (fun e acc => cborText e.1 ++ cborUInt e.2 ++ acc) []

/-- CBOR decode errors (`CorruptWitness` conditions of the spec §7). -/
inductive CborErr where
  | tooShort
  | majorMismatch
  | badArg
  deriving Repr, DecidableEq

/-- Decode a CBOR head of the expected major type, returning the argument
value and the unconsumed tail. -/
def cborDecArg (expect : Nat) (input : List Nat) : Except CborErr (Nat × List Nat) :=
  match input with
  | [] => .error .tooShort
  | b :: rest =>
    if b / 32 ≠ expect then .error .majorMismatch
    else
      let ai := b % 32
      if ai < 24 then .ok (ai, rest)
      else if ai = 24 then
        match rest with
        | [] => .error .tooShort
        | x :: r => .ok (x, r)
      else if ai = 25 then
        if rest.length < 2 then .error .tooShort else .ok (beToNat (rest.take 2), rest.drop 2)
      else if ai = 26 then
        if rest.length < 4 then .error .tooShort else .ok (beToNat (rest.take 4), rest.drop 4)
      else if ai = 27 then
        if rest.length < 8 then .error .tooShort else .ok (beToNat (rest.take 8), rest.drop 8)
      else .error .badArg

/-- Decode a CBOR text string. -/
def cborDecText (input : List Nat) : Except CborErr (List Nat × List Nat) :=
  match cborDecArg 3 input with
  | .error e => .error e
  | .ok (n, r) =>
    if r.length < n then .error .tooShort else .ok (r.take n, r.drop n)

/-- Decode `n` key-value pairs of a CBOR map from text to unsigned
integer. -/
def cborDecPairs : Nat → List Nat → Except CborErr (List (List Nat × Nat) × List Nat)
  | 0, r => .ok ([], r)
  | n + 1, r =>
    match cborDecText r with
    | .error e => .error e
    | .ok (k, r1) =>
      match cborDecArg 0 r1 with
      | .error e => .error e
      | .ok (v, r2) =>
        match cborDecPairs n r2 with
        | .error e => .error e
        | .ok (t, r3) => .ok ((k, v) :: t, r3)

/-- Decode one CBOR map from text keys to unsigned integers (the witness
header), returning the entries and the unconsumed tail. -/
def cborDecMapStrNat (input : List Nat) : Except CborErr (List (List Nat × Nat) × List Nat) :=
  match cborDecArg 5 input with
  | .error e => .error e
  | .ok (n, r) => cborDecPairs n r

/-! ## The structure-tape opcodes (trie/proof_generator.go) -/

/-- The `Instruction` enumeration, constructors in the declaration order
of the Go `const` block. -/
inductive Instruction where
  | OpLeaf
  | OpLeafHash
  | OpExtension
  | OpExtensionHash
  | OpBranch
  | OpBranchHash
  | OpHash
  | OpCode
  | OpAccountLeaf
  | OpAccountLeafHash
  | OpContractLeaf
  | OpContractLeafHash
  | OpEmptyRoot
  deriving Repr, DecidableEq

/-- The numeric (wire) value of an opcode: Go's `iota` assigns consecutive
values starting from 0 in declaration order. -/
def Instruction.val : Instruction → Nat
  | .OpLeaf => 0
  | .OpLeafHash => 1
  | .OpExtension => 2
  | .OpExtensionHash => 3
  | .OpBranch => 4
  | .OpBranchHash => 5
  | .OpHash => 6
  | .OpCode => 7
  | .OpAccountLeaf => 8
  | .OpAccountLeafHash => 9
  | .OpContractLeaf => 10
  | .OpContractLeafHash => 11
  | .OpEmptyRoot => 12

/-! ## Trie node model

The trie node types (`node.go`) are not among the extracted sources; they
are modelled from the spec (§3): a tagged sum of leaf/extension (`Short`),
two-child branch (`Duo` with its occupancy mask), 17-slot branch (`Full`),
account, opaque value, and 32-byte hash reference.  `nilNode` models a nil
Go interface value (an empty child slot or an empty trie root). -/

mutual
inductive node where
  | nilNode
  | valueNode (v : List Nat)
  | shortNode (key : List Nat) (val : node)
  | duoNode (mask : Nat) (child1 child2 : node)
  | fullNode (children : nodeList)
  | accountNode (nonce balance : Nat) (root codeHash : List Nat) (storage : node)
  | hashNode (h : List Nat)
inductive nodeList where
  | nil
  | cons (hd : node) (tl : nodeList)
end

/-- Modelled from the spec (§3): `accountNode.IsEmptyRoot` — the storage
root is the empty-root constant. -/
def nodeIsEmptyRoot (root : List Nat) : Bool := root = emptyRootBytes

/-- Modelled from the spec (§3): `accountNode.IsEmptyCodeHash` — the code
hash is the empty-code-hash constant. -/
def nodeIsEmptyCodeHash (codeHash : List Nat) : Bool := codeHash = emptyCodeHashBytes

/-- The 32-byte output buffer of `hasher.hash`: the written bytes padded
with zeros to exactly 32 bytes (`var hn common.Hash`). -/
def hashOut (l : List Nat) : List Nat := (l ++ List.replicate 32 0).take 32

/-- Modelled from the spec (§3): `duoNode.childrenIdx` recovers the two
child indices `i1 < i2` from the occupancy mask. -/
def childrenIdx (mask : Nat) : Nat × Nat :=
  let l := (List.range 16).filter (fun i => mask.testBit i)
  (l.headD 0, (l.drop 1).headD 0)

/-! ## The block-witness builder (trie/proof_generator.go)

`BlockWitnessBuilder` accumulates five byte tapes.  The hasher and the
resolve set live outside the extracted sources, so `makeBlockWitness`
takes them as parameters: `hf nd force` models `hr.hash(nd, force, buf)`
returning the written bytes, and `rs hex` models `rs.HashOnly(hex)`. -/

structure Tapes where
  Keys : List Nat
  Values : List Nat
  Hashes : List Nat
  Codes : List Nat
  Structure : List Nat
  deriving Repr, DecidableEq

/-- The freshly initialised builder: all tapes empty. -/
def Tapes.empty : Tapes := ⟨[], [], [], [], []⟩

/-- Pointwise concatenation: appending to the five tape buffers. -/
def Tapes.append (a b : Tapes) : Tapes :=
  ⟨a.Keys ++ b.Keys, a.Values ++ b.Values, a.Hashes ++ b.Hashes,
   a.Codes ++ b.Codes, a.Structure ++ b.Structure⟩

instance : Append Tapes := ⟨Tapes.append⟩

/-- `supplyKey`: one CBOR byte-string item on the keys tape. -/
def supplyKey (key : List Nat) : Tapes := { Tapes.empty with Keys := cborBytes key }

/-- `supplyValue`: one CBOR byte-string item on the values tape. -/
def supplyValue (v : List Nat) : Tapes := { Tapes.empty with Values := cborBytes v }

/-- `supplyNumber`: one CBOR unsigned-integer item on the values tape. -/
def supplyNumber (n : Nat) : Tapes := { Tapes.empty with Values := cborUInt n }

/-- `supplyBigInt`: the minimal big-endian bytes of the balance as a CBOR
byte string on the values tape. -/
def supplyBigInt (n : Nat) : Tapes := { Tapes.empty with Values := cborBytes (natToBE n) }

/-- `supplyCode`: one CBOR byte-string item on the codes tape. -/
def supplyCode (code : List Nat) : Tapes := { Tapes.empty with Codes := cborBytes code }

/-- `supplyHash`: the 32-byte hash as a CBOR byte string on the hashes
tape. -/
def supplyHash (h : List Nat) : Tapes := { Tapes.empty with Hashes := cborBytes h }

/-- An opcode with no operand on the structure tape. -/
def emitOp (o : Instruction) : Tapes := { Tapes.empty with Structure := cborUInt o.val }

/-- An opcode followed by an unsigned-integer operand. -/
def emitOpNum (o : Instruction) (n : Nat) : Tapes :=
  { Tapes.empty with Structure := cborUInt o.val ++ cborUInt n }

/-- An opcode followed by a byte-string operand (`extension` keys). -/
def emitOpBytes (o : Instruction) (b : List Nat) : Tapes :=
  { Tapes.empty with Structure := cborUInt o.val ++ cborBytes b }

mutual
/-- `makeBlockWitness`: the recursive walk over the trie appending to the
five tapes.  `hf` is the external hasher, `cf` the `codeFromHash`
callback, `rs` the resolve-set `HashOnly` query. -/
def makeBlockWitness (hf : node → Bool → List Nat) (cf : List Nat → List Nat)
    (rs : List Nat → Bool) : node → List Nat → Bool → Tapes
  | node.nilNode, _, _ => Tapes.empty
  | node.valueNode v, _, _ => supplyValue v
  | node.shortNode key val, hex, _ =>
    let hashOnly := rs hex
    let h := if key.getLast? = some 16 then key.dropLast else key
    let hexVal := hex ++ h
    let t1 := makeBlockWitness hf cf rs val hexVal false
    match val with
    | node.valueNode _ =>
      t1 ++ supplyKey key ++
        (if hashOnly then emitOpNum .OpLeafHash key.length else emitOpNum .OpLeaf key.length)
    | node.accountNode _ _ root codeHash _ =>
      t1 ++ supplyKey key ++
        (if hashOnly then
          (if nodeIsEmptyRoot root ∧ nodeIsEmptyCodeHash codeHash then
            emitOpNum .OpAccountLeafHash key.length
          else emitOpNum .OpContractLeafHash key.length)
        else
          (if nodeIsEmptyRoot root ∧ nodeIsEmptyCodeHash codeHash then
            emitOpNum .OpAccountLeaf key.length
          else emitOpNum .OpContractLeaf key.length))
    | _ =>
      t1 ++ (if hashOnly then emitOpBytes .OpExtensionHash key else emitOpBytes .OpExtension key)
  | node.duoNode mask c1 c2, hex, force =>
    let hashOnly := rs hex
    if hashOnly then
      supplyHash (hashOut (hf (node.duoNode mask c1 c2) force)) ++ emitOpNum .OpHash 1
    else
      let i := childrenIdx mask
      makeBlockWitness hf cf rs c1 (hex ++ [i.1]) false ++
        makeBlockWitness hf cf rs c2 (hex ++ [i.2]) false ++
        emitOpNum .OpBranch mask
  | node.fullNode children, hex, _ =>
    let hashOnly := rs hex
    if hashOnly then
      supplyHash (hashOut (hf (node.fullNode children) (hex.length = 0))) ++ emitOpNum .OpHash 1
    else
      let r := mbwChildren hf cf rs children hex 0
      r.1 ++ emitOpNum .OpBranch r.2
  | node.accountNode nonce balance root codeHash storage, hex, _ =>
    let hashOnly := rs hex
    (if ¬(nodeIsEmptyRoot root ∧ nodeIsEmptyCodeHash codeHash) then
      (if hashOnly then
        supplyHash root ++ supplyHash codeHash ++ emitOpNum .OpHash 2
      else
        makeBlockWitness hf cf rs storage hex true ++ supplyCode (cf codeHash) ++ emitOp .OpCode)
    else Tapes.empty) ++ supplyNumber nonce ++ supplyBigInt balance
  | node.hashNode _, _, _ => Tapes.empty

/-- The `fullNode` child loop: tapes of the non-nil children in index
order, together with the occupancy bitmap. -/
def mbwChildren (hf : node → Bool → List Nat) (cf : List Nat → List Nat)
    (rs : List Nat → Bool) : nodeList → List Nat → Nat → Tapes × Nat
  | nodeList.nil, _, _ => (Tapes.empty, 0)
  | nodeList.cons c tl, hex, i =>
    let r := mbwChildren hf cf rs tl hex (i + 1)
    match c with
    | node.nilNode => r
    | c => (makeBlockWitness hf cf rs c (hex ++ [i]) false ++ r.1, r.2 ||| (1 <<< i))
end

/-- `MakeBlockWitness` on a whole trie (root may be nil). -/
def MakeBlockWitness (hf : node → Bool → List Nat) (cf : List Nat → List Nat)
    (rs : List Nat → Bool) (root : node) : Tapes :=
  makeBlockWitness hf cf rs root [] true

/-- The five tape names (UTF-8 bytes of "keys", "values", "hashes",
"codes", "structure"). -/
def KeysTapeName : List Nat := [107, 101, 121, 115]

def ValuesTapeName : List Nat := [118, 97, 108, 117, 101, 115]

def HashesTapeName : List Nat := [104, 97, 115, 104, 101, 115]

def CodesTapeName : List Nat := [99, 111, 100, 101, 115]

def StructureTapeName : List Nat := [115, 116, 114, 117, 99, 116, 117, 114, 101]

/-- `WriteTo`: the canonical-CBOR header map from tape names to tape byte
lengths, followed by the five tape bodies in the fixed order of the
source. -/
def WriteTo (b : Tapes) : List Nat :=
  cborMapCanon
    [(KeysTapeName, b.Keys.length), (ValuesTapeName, b.Values.length),
     (HashesTapeName, b.Hashes.length), (CodesTapeName, b.Codes.length),
     (StructureTapeName, b.Structure.length)] ++
  b.Keys ++ b.Values ++ b.Hashes ++ b.Codes ++ b.Structure

/-- `BlockWitnessToTrie`: decodes the header map and — as the body of the
function is commented out in the source — returns nil trie and nil code
map. -/
def BlockWitnessToTrie (bw : List Nat) :
    Except CborErr (Option node × Option (List (List Nat × List Nat))) :=
  match cborDecMapStrNat bw with
  | .error e => .error e
  | .ok _ => .ok (none, none)

/-! ## Hex-key helpers

`keybytesToHex`, `hexToCompact` and `compactToHex` live in the trie
package's key-encoding file, which is not among the extracted sources;
they are modelled from the spec (§4.A): nibbles high-first with the
terminator nibble 16, and the two-flag compact prefix byte
`(is_leaf<<5) | (odd<<4) | first_nibble_if_odd`. -/

/-- Byte key to nibble string with terminator nibble 16 appended. -/
def keybytesToHex (k : List Nat) : List Nat :=
  k.foldr (fun b acc => b / 16 :: b % 16 :: acc) [16]

/-- Pack a nibble string two-per-byte (high nibble first). -/
def packNibbles : List Nat → List Nat
  | a :: b :: t => (16 * a + b) :: packNibbles t
  | _ => []

/-- Modelled from the spec (§4.A): hex-compact encoding.  The terminator
nibble marks a leaf; an odd remainder stores its first nibble in the
prefix byte. -/
def hexToCompact (hex : List Nat) : List Nat :=
  let term := if hex.getLast? = some 16 then 1 else 0
  let h := if hex.getLast? = some 16 then hex.dropLast else hex
  if h.length % 2 = 1 then
    (term * 32 + 16 + h.headD 0) :: packNibbles h.tail
  else
    (term * 32) :: packNibbles h

/-- Modelled from the spec (§4.A): inverse of `hexToCompact`.  The nibble
form of the compact bytes carries the flags in its first nibble; the
terminator is re-appended for leaves and one or two prefix nibbles are
chopped depending on the odd flag. -/
def compactToHex (compact : List Nat) : List Nat :=
  match compact with
  | [] => []
  | _ =>
    let base := keybytesToHex compact
    let base := if base.headD 0 < 2 then base.dropLast else base
    base.drop (2 - base.headD 0 % 2)

/-! ## The streaming resolver (trie/resolver.go) -/

/-- Resolver errors.  `hashNodeExpected` models the Go panic of the same
message; `rlpFail` wraps an RLP decode failure surfaced by `Walker`. -/
inductive RErr where
  | wrongHash
  | wrongHashEmbedded
  | nilRoot
  | hashNodeExpected
  | rlpFail (e : RlpErr)
  deriving Repr, DecidableEq

/-- An entry of the `nodeStack` array: the `Key`/`Val` fields of the
pre-allocated `shortNode` (the dirty flag is an implementation hint per
spec §4.B and is not modelled). -/
structure SNode where
  key : List Nat
  val : node

/-- The `shortNode` value stored or promoted from a stack entry
(`short.copy()`). -/
def SNode.toNode (s : SNode) : node := node.shortNode s.key s.val

/-- The slot of the original trie that a resolve request splices into:
`resolveParent` captured as the parent variant (spec §9 models the back
pointer exactly this way). -/
inductive ParentSlot where
  | pNil
  | pShort (key : List Nat) (val : node)
  | pDuo (mask : Nat) (child1 child2 : node)
  | pFull (children : List node)

/-- A `ResolveRequest` together with the trie (`req.t`) it belongs to. -/
structure ReqS where
  contract : List Nat
  resolveHex : List Nat
  resolvePos : Nat
  extResolvePos : Nat
  resolveHash : List Nat
  resolved : Option node
  parent : ParentSlot
  tRoot : node

/-- The mutable state of `TrieResolver`.  The vertical arrays are
modelled as functions from level (and child index) so that point updates
mirror the in-place writes of the source. -/
structure TRState where
  accounts : Bool
  hashes : Bool
  requests : List ReqS
  resolveHexes : List (List Nat)
  rhIndexLte : Int
  rhIndexGt : Nat
  reqIndices : List Nat
  key : List Nat
  value : List Nat
  keySet : Bool
  nodeStack : Nat → SNode
  vertical : Nat → Nat → node
  fillCount : Nat → Nat
  startLevel : Nat
  keyIdx : Nat
  blockNr : Nat

/-- Point update of a one-argument array model. -/
def upd1 {α : Type} (f : Nat → α) (i : Nat) (v : α) : Nat → α :=
  fun j => if j = i then v else f j

/-- Point update of the two-argument `vertical` children model. -/
def upd2 (f : Nat → Nat → node) (i j : Nat) (v : node) : Nat → Nat → node :=
  fun i2 j2 => if i2 = i ∧ j2 = j then v else f i2 j2

/-- Field assignment `tr.vertical = f` (one Go statement). -/
def withVertical (tr : TRState) (f : Nat → Nat → node) : TRState := { tr with vertical := f }

/-- Field assignment `tr.nodeStack = f`. -/
def withNodeStack (tr : TRState) (f : Nat → SNode) : TRState := { tr with nodeStack := f }

/-- Field assignment `tr.fillCount = f`. -/
def withFillCount (tr : TRState) (f : Nat → Nat) : TRState := { tr with fillCount := f }

/-- Field assignments of the `rhIndexGt` / `rhIndexLte` cursors. -/
def withRh (tr : TRState) (gt : Nat) (lte : Int) : TRState :=
  { tr with rhIndexGt := gt, rhIndexLte := lte }

/-- Field assignment `tr.startLevel = s`. -/
def withStartLevel (tr : TRState) (s : Nat) : TRState := { tr with startLevel := s }

/-- Field assignments `tr.key_set = b; tr.keyIdx = i`. -/
def withKeySetIdx (tr : TRState) (b : Bool) (i : Nat) : TRState :=
  { tr with keySet := b, keyIdx := i }

/-- Field assignment `tr.keyIdx = i`. -/
def withKeyIdx (tr : TRState) (i : Nat) : TRState := { tr with keyIdx := i }

/-- Field assignment `tr.key = k` (the `copy` into `key_array`). -/
def withKey (tr : TRState) (k : List Nat) : TRState := { tr with key := k }

/-- Field assignments `tr.value = v; tr.key_set = true`. -/
def withValueKeySet (tr : TRState) (v : List Nat) : TRState :=
  { tr with value := v, keySet := true }

/-- A default request (out-of-range list reads never occur in the
modelled executions). -/
def defaultReq : ReqS :=
  { contract := [], resolveHex := [], resolvePos := 0, extResolvePos := 0,
    resolveHash := [], resolved := none, parent := .pNil, tRoot := node.nilNode }

/-- `tr.requests[tr.reqIndices[tr.keyIdx]]`. -/
def currentReq (tr : TRState) : ReqS :=
  tr.requests.getD (tr.reqIndices.getD tr.keyIdx 0) defaultReq

/-- Write back the current request after mutating its fields. -/
def setCurrentReq (tr : TRState) (r : ReqS) : TRState :=
  { tr with requests := tr.requests.set (tr.reqIndices.getD tr.keyIdx 0) r }

/-- The `fullNode` view of one level of the `vertical` array (17 child
slots). -/
def fullOf (f : Nat → node) : node :=
  node.fullNode ((List.range 17).foldr (fun i acc => nodeList.cons (f i) acc) nodeList.nil)

/-- Whether a child slot is occupied (a nil Go interface is `nilNode`). -/
def isNilNode : node → Bool
  | node.nilNode => true
  | _ => false

/-- Modelled from the spec (§3): `fullNode.duoCopy` — the two-child copy
of a branch with exactly two occupied slots, with occupancy mask
`(1<<i1) | (1<<i2)`. -/
def duoCopyOf (f : Nat → node) : node :=
  let idxs := (List.range 16).filter (fun i => ¬ isNilNode (f i))
  let i1 := idxs.headD 0
  let i2 := (idxs.drop 1).headD 0
  node.duoNode ((1 <<< i1) ||| (1 <<< i2)) (f i1) (f i2)

/-- A cleared `nodeStack` entry (`Key = nil`, `Val = nil`). -/
def emptySNode : SNode := ⟨[], node.nilNode⟩

/-- Clear level `l + 1` of the vertical arrays (the resetting block that
runs when `level >= req.extResolvePos`). -/
def clearAbove (tr : TRState) (l : Nat) : TRState :=
  withVertical
    (withFillCount (withNodeStack tr (upd1 tr.nodeStack (l + 1) emptySNode))
      (upd1 tr.fillCount (l + 1) 0))
    (fun i j => if i = l + 1 then node.nilNode else tr.vertical i j)

/-- The promotion of a single `shortNode` one level up (the
`fillCount[level+1] == 1` branch of the folding loop): store the copy in
the vertical slot and, if this level was empty, prepend the transition
nibble to the stack entry's key. -/
def foldPromote (tr : TRState) (level keynibble : Nat) : TRState :=
  let short := tr.nodeStack (level + 1)
  let tr1 := withVertical tr (upd2 tr.vertical level keynibble short.toNode)
  if tr1.fillCount level = 0 then
    withNodeStack tr1 (upd1 tr1.nodeStack level
      ⟨hexToCompact (keynibble :: compactToHex short.key), short.val⟩)
  else tr1

/-- The `fillCount[level+1] != 1` branch of the folding loop after the
hash has been computed: set the one-nibble stack key if this level was
empty, then store either the materialized subtree (a `Duo` copy for two
children, a `Full` copy otherwise) or only the 32-byte hash reference,
depending on whether the prefix is on a resolving path or the
"hashes && level == 5" retention rule applies. -/
def foldStore (tr : TRState) (level keynibble : Nat) (onResolvingPath : Bool)
    (storeHashTo : List Nat) : TRState :=
  let tr1 :=
    if tr.fillCount level = 0 then
      withNodeStack tr (upd1 tr.nodeStack level
        ⟨hexToCompact [keynibble], (tr.nodeStack level).val⟩)
    else tr
  if onResolvingPath || (tr1.hashes && level == 5) then
    let c := if tr1.fillCount (level + 1) = 2 then duoCopyOf (tr1.vertical (level + 1))
             else fullOf (tr1.vertical (level + 1))
    let tr2 := withVertical tr1 (upd2 tr1.vertical level keynibble c)
    if tr2.fillCount level = 0 then
      withNodeStack tr2 (upd1 tr2.nodeStack level ⟨(tr2.nodeStack level).key, c⟩)
    else tr2
  else
    let tr2 := withVertical tr1 (upd2 tr1.vertical level keynibble (node.hashNode storeHashTo))
    if tr2.fillCount level = 0 then
      withNodeStack tr2 (upd1 tr2.nodeStack level
        ⟨(tr2.nodeStack level).key, node.hashNode storeHashTo⟩)
    else tr2

/-- The common tail of one folding iteration: `fillCount[level]++`, then
reset level + 1 when `level >= req.extResolvePos`. -/
def foldFinish (req : ReqS) (level : Nat) (tr : TRState) : TRState :=
  let tr1 := withFillCount tr (upd1 tr.fillCount level (tr.fillCount level + 1))
  if level ≥ req.extResolvePos then clearAbove tr1 level else tr1

/-- One iteration of the folding loop of `finishPreviousKey` at `level`.
`hf` is the external hasher (`tr.h.hash`); the hash of the vertical
branch is computed before any mutation, and a result shorter than 32
bytes is the `"hashNode expected"` panic. -/
def foldOneLevel (hf : node → Bool → List Nat) (hex : List Nat) (rhPrefixLen : Nat)
    (tr : TRState) (level : Nat) : Option RErr × TRState :=
  let req := currentReq tr
  let keynibble := hex.getD level 0
  let onResolvingPath := level < rhPrefixLen
  if tr.fillCount (level + 1) = 1 then
    (none, foldFinish req level (foldPromote tr level keynibble))
  else
    let hashRes := hf (fullOf (tr.vertical (level + 1))) false
    if hashRes.length < 32 then (some .hashNodeExpected, tr)
    else
      (none, foldFinish req level
        (foldStore tr level keynibble (decide onResolvingPath) (hashOut hashRes)))

/-- The folding loop `for level := startLevel; level >= stopLevel; level--`,
running `count` iterations starting at `level`. -/
def foldLevels (hf : node → Bool → List Nat) (hex : List Nat) (rhPrefixLen : Nat) :
    Nat → Nat → TRState → Option RErr × TRState
  | 0, _, tr => (none, tr)
  | count + 1, level, tr =>
    match foldOneLevel hf hex rhPrefixLen tr level with
    | (some e, tr') => (some e, tr')
    | (none, tr') => foldLevels hf hex rhPrefixLen count (level - 1) tr'

/-- The cursor-advancing loop over `resolveHexes` (`rhIndexGt`,
`rhIndexLte`), with explicit fuel bounded by the list length. -/
def advanceRh (hex : List Nat) (rhs : List (List Nat)) :
    Nat → Nat → Int → Nat × Int
  | 0, gt, lte => (gt, lte)
  | fuel + 1, gt, lte =>
    if gt < rhs.length ∧ listCompare hex (rhs.getD gt []) ≠ -1 then
      advanceRh hex rhs fuel (gt + 1) (lte + 1)
    else (gt, lte)

/-- The folding phase of `finishPreviousKey` (everything before the
`k == nil` block): stop/start level computation, pushing the previous
key's leaf, cursor adjustment and the folding loop. -/
def fpkFold (hf : node → Bool → List Nat) (tr : TRState) (k : Option (List Nat)) :
    Option RErr × TRState :=
  let pLen := match k with
    | none => 0
    | some kk => commonPrefixLen kk tr.key
  let stopLevel :=
    2 * pLen +
      (match k with
       | none => 0
       | some kk => if (kk.getD pLen 0 ^^^ tr.key.getD pLen 0) &&& 0xf0 = 0 then 1 else 0)
  let req := currentReq tr
  let startLevel := max (max tr.startLevel req.extResolvePos) stopLevel
  let hex := keybytesToHex tr.key
  let tr := withFillCount
    (withNodeStack tr (upd1 tr.nodeStack (startLevel + 1)
      ⟨hexToCompact (hex.drop (startLevel + 1)), node.valueNode tr.value⟩))
    (upd1 tr.fillCount (startLevel + 1) 1)
  let gtLte := advanceRh hex tr.resolveHexes (tr.resolveHexes.length - tr.rhIndexGt)
      tr.rhIndexGt tr.rhIndexLte
  let tr := withRh tr gtLte.1 gtLte.2
  let rhPrefixLen :=
    if tr.rhIndexLte ≥ 0 then
      commonPrefixLen hex (tr.resolveHexes.getD tr.rhIndexLte.toNat [])
    else 0
  let rhPrefixLen :=
    if tr.rhIndexGt < tr.resolveHexes.length then
      max rhPrefixLen (commonPrefixLen hex (tr.resolveHexes.getD tr.rhIndexGt []))
    else rhPrefixLen
  match foldLevels hf hex rhPrefixLen (startLevel + 1 - stopLevel) startLevel tr with
  | (some e, tr') => (some e, tr')
  | (none, tr') => (none, withStartLevel tr' stopLevel)

/-- The root selection of the `k == nil` block: promote the stack entry,
the duo copy, or the full copy, depending on the fill count at
`req.extResolvePos`. -/
def fpkRoot (tr : TRState) : Option node :=
  let pos := (currentReq tr).extResolvePos
  if tr.fillCount pos = 1 then some (tr.nodeStack pos).toNode
  else if tr.fillCount pos = 2 then some (duoCopyOf (tr.vertical pos))
  else if tr.fillCount pos > 2 then some (fullOf (tr.vertical pos))
  else none

/-- Splice the resolved `root` into the parent slot, replacing a hash
reference; matches the `switch parent := req.resolveParent.(type)`
block. -/
def spliceRoot (req : ReqS) (root : node) : ReqS :=
  match req.parent with
  | .pNil =>
    match req.tRoot with
    | node.hashNode _ => { req with tRoot := root }
    | _ => req
  | .pShort key val =>
    match val with
    | node.hashNode _ => { req with parent := .pShort key root }
    | _ => req
  | .pDuo mask c1 c2 =>
    let i := childrenIdx mask
    let nib := req.resolveHex.getD (req.resolvePos - 1) 0
    if nib = i.1 then
      match c1 with
      | node.hashNode _ => { req with parent := .pDuo mask root c2 }
      | _ => req
    else if nib = i.2 then
      match c2 with
      | node.hashNode _ => { req with parent := .pDuo mask c1 root }
      | _ => req
    else req
  | .pFull children =>
    let idx := req.resolveHex.getD (req.resolvePos - 1) 0
    match children.getD idx node.nilNode with
    | node.hashNode _ => { req with parent := .pFull (children.set idx root) }
    | _ => req

/-- Reset every level of the vertical arrays (the loop over
`0 <= i <= Levels` after a successful resolve). -/
def clearAllLevels (tr : TRState) : TRState :=
  withFillCount
    (withVertical (withNodeStack tr (fun _ => emptySNode)) (fun _ _ => node.nilNode))
    (fun _ => 0)

/-- The `k == nil` block of `finishPreviousKey`: build the root, verify
its hash bit-exactly against the request's expected hash, then record
the root and splice it into the original trie.  (`timestampSubTree` only
feeds the pruner per spec §4.F and is not modelled.) -/
def fpkFinish (hf : node → Bool → List Nat) (tr : TRState) : Option RErr × TRState :=
  let req := currentReq tr
  match fpkRoot tr with
  | none => (some .nilRoot, tr)
  | some root =>
    let g := hf root (req.resolvePos = 0)
    if g.length = 32 then
      if req.resolveHash ≠ hashOut g then (some .wrongHash, tr)
      else
        let tr := clearAllLevels tr
        (none, setCurrentReq tr (spliceRoot { req with resolved := some root } root))
    else
      if req.resolveHash ≠ [] then (some .wrongHashEmbedded, tr)
      else
        let tr := clearAllLevels tr
        (none, setCurrentReq tr (spliceRoot { req with resolved := some root } root))

/-- `finishPreviousKey`: the folding phase followed, at end of stream,
by root construction, hash verification and the splice. -/
def finishPreviousKey (hf : node → Bool → List Nat) (tr : TRState) (k : Option (List Nat)) :
    Option RErr × TRState :=
  match fpkFold hf tr k with
  | (some e, tr') => (some e, tr')
  | (none, tr') =>
    match k with
    | none => fpkFinish hf tr'
    | some _ => (none, tr')

/-- Modelled from the spec (§4.F, account value normalization): raw
values may be (a) one byte — an empty externally-owned account, so
fabricate zero nonce and balance with the empty root and empty code
hash; (b) short RLP `{nonce, balance}` (fewer than 60 bytes) — decode it
and fill the missing storage root and code hash with the empty
constants; (c) full account RLP — copy verbatim.  The result is always
the canonical full four-field account RLP or the verbatim value. -/
def specNormalizeAccountValue (v : List Nat) : Except RlpErr (List Nat) :=
  if v.length = 1 then
    .ok (rlpAccount4 0 0 emptyRootBytes emptyCodeHashBytes)
  else if v.length < 60 then
    match rlpDecExtAccount v with
    | .error e => .error e
    | .ok (nonce, balance) => .ok (rlpAccount4 nonce balance emptyRootBytes emptyCodeHashBytes)
  else .ok v

/-- `TrieResolver.Walker`: request-boundary handling, folding of the
previous key, then remembering the current key and the (normalized)
value. -/
def Walker (hf : node → Bool → List Nat) (tr : TRState) (keyIdx : Nat)
    (k v : List Nat) : Bool × Option RErr × TRState :=
  let step1 : Option RErr × TRState :=
    if keyIdx ≠ tr.keyIdx then
      if tr.keySet then
        match finishPreviousKey hf tr none with
        | (some e, tr') => (some e, tr')
        | (none, tr') => (none, withKeySetIdx tr' false keyIdx)
      else (none, withKeyIdx tr keyIdx)
    else (none, tr)
  match step1 with
  | (some e, tr') => (false, some e, tr')
  | (none, tr) =>
    if v.length > 0 then
      let step2 : Option RErr × TRState :=
        if tr.keySet then
          match finishPreviousKey hf tr (some k) with
          | (some e, tr') => (some e, tr')
          | (none, tr') => (none, tr')
        else (none, tr)
      match step2 with
      | (some e, tr') => (false, some e, tr')
      | (none, tr) =>
        let tr := withKey tr (if tr.accounts then k.take 32 else k.take 52)
        if tr.accounts then
          if v.length = 1 then
            (true, none, withValueKeySet tr (rlpAccount4 0 0 emptyRootBytes emptyCodeHashBytes))
          else if v.length < 60 then
            match rlpDecExtAccount v with
            | .error e => (false, some (.rlpFail e), tr)
            | .ok (nonce, balance) =>
              (true, none,
                withValueKeySet tr (rlpAccount4 nonce balance emptyRootBytes emptyCodeHashBytes))
          else (true, none, withValueKeySet tr v)
        else (true, none, withValueKeySet tr v)
    else (true, none, tr)

/-! ## Concrete inputs used by witnesses and counterexamples -/

/-- A stand-in for the external hasher: every node hashes to 32 zero
bytes.  The claims settled with it do not depend on hash values. -/
def hfZero : node → Bool → List Nat := fun _ _ => List.replicate 32 0

/-- A stand-in `codeFromHash` callback returning empty code. -/
def cfNil : List Nat → List Nat := fun _ => []

/-- A resolve set covering everything: `HashOnly` always false. -/
def rsFalse : List Nat → Bool := fun _ => false

/-- A resolve set covering nothing: `HashOnly` always true. -/
def rsTrue : List Nat → Bool := fun _ => true

/-- A one-leaf trie: key nibbles `1, 2` with terminator, value `"V"`. -/
def leafTrie : node := node.shortNode [1, 2, 16] (node.valueNode [86])

/-- The serialized witness of `leafTrie` with everything resolved. -/
def leafWitnessBytes : List Nat := WriteTo (MakeBlockWitness hfZero cfNil rsFalse leafTrie)

/-- The header entries and tail obtained by decoding
`leafWitnessBytes`. -/
def leafWitnessHeader : List (List Nat × Nat) × List Nat :=
  ([([99, 111, 100, 101, 115], 0), ([104, 97, 115, 104, 101, 115], 0),
    ([107, 101, 121, 115], 4), ([115, 116, 114, 117, 99, 116, 117, 114, 101], 2),
    ([118, 97, 108, 117, 101, 115], 2)],
   [67, 1, 2, 16, 65, 86, 0, 3])

/-- The serialized witness of the empty trie: the canonical header map
with all five tape lengths zero, and nothing after it. -/
def emptyWitnessHeader : List Nat :=
  [165, 101, 99, 111, 100, 101, 115, 0, 102, 104, 97, 115, 104, 101, 115, 0,
   100, 107, 101, 121, 115, 0, 105, 115, 116, 114, 117, 99, 116, 117, 114, 101, 0,
   102, 118, 97, 108, 117, 101, 115, 0]

/-- A two-child branch with mask `0b11` and two hash-reference
children. -/
def duo0 : node :=
  node.duoNode 3 (node.hashNode (List.replicate 32 1)) (node.hashNode (List.replicate 32 2))

/-- An account that refutes the unrestricted round-trip claim: zero
nonce and balance, *all-zero* storage root, empty code hash.  Encoding
canonicalizes the root, so decoding returns the empty root instead. -/
def zeroRootAccount : Account :=
  { Nonce := 0, Balance := some 0, Root := zeroHash32,
    CodeHash := some emptyCodeHashBytes, StorageSize := none }

/-- A canonical-form account exercising the `ExtAccount` round trip. -/
def acct1 : Account :=
  { Nonce := 1, Balance := some 5, Root := emptyRootBytes,
    CodeHash := some emptyCodeHashBytes, StorageSize := none }

/-- A quiescent resolver state in account mode (nothing pending). -/
def trWalker : TRState :=
  { accounts := true, hashes := false, requests := [], resolveHexes := [],
    rhIndexLte := -1, rhIndexGt := 0, reqIndices := [], key := [], value := [],
    keySet := false, nodeStack := fun _ => emptySNode,
    vertical := fun _ _ => node.nilNode, fillCount := fun _ => 0,
    startLevel := 0, keyIdx := 0, blockNr := 0 }

/-- Whether a node is a materialized branch (`duoNode` or `fullNode`). -/
def isBranchNode : node → Bool
  | node.duoNode _ _ _ => true
  | node.fullNode _ => true
  | _ => false

/-- A resolve request expecting a hash that no dummy-hashed subtree
matches. -/
def req0 : ReqS :=
  { contract := [], resolveHex := [], resolvePos := 0, extResolvePos := 0,
    resolveHash := List.replicate 32 1, resolved := none, parent := .pNil,
    tRoot := node.hashNode (List.replicate 32 1) }

/-- A resolver state holding one pending key for `req0`. -/
def trC2 : TRState :=
  { trWalker with
      requests := [req0], reqIndices := [0], key := [18],
      value := [86], keySet := true }

/-- A resolver state whose level-1 subtree holds exactly two children. -/
def trC8 : TRState :=
  { trWalker with
      fillCount := upd1 (fun _ => 0) 1 2,
      vertical := fun i j => if i = 1 ∧ j < 2 then node.valueNode [7] else node.nilNode }

/-! ## Theorems -/

/-- Claim C6 (confirmed): the numeric wire values of the structure-tape
opcodes are exactly `Leaf=0, LeafHash=1, Extension=2, ExtensionHash=3,
Branch=4, BranchHash=5, Hash=6, Code=7, AccountLeaf=8, AccountLeafHash=9,
ContractLeaf=10, ContractLeafHash=11, EmptyRoot=12`. -/
theorem c6_opcode_values :
    Instruction.val .OpLeaf = 0 ∧ Instruction.val .OpLeafHash = 1 ∧
    Instruction.val .OpExtension = 2 ∧ Instruction.val .OpExtensionHash = 3 ∧
    Instruction.val .OpBranch = 4 ∧ Instruction.val .OpBranchHash = 5 ∧
    Instruction.val .OpHash = 6 ∧ Instruction.val .OpCode = 7 ∧
    Instruction.val .OpAccountLeaf = 8 ∧ Instruction.val .OpAccountLeafHash = 9 ∧
    Instruction.val .OpContractLeaf = 10 ∧ Instruction.val .OpContractLeafHash = 11 ∧
    Instruction.val .OpEmptyRoot = 12 := by
  decide

/-- Claim C5 (confirmed): `WriteTo` first writes a single canonical-CBOR
map from the five tape names to their byte lengths (entries sorted by
key), then the five tape bodies back-to-back in exactly the order keys,
values, hashes, codes, structure. -/
theorem c5_writeTo_layout (b : Tapes) :
    WriteTo b =
      (cborHead 5 5 ++
        (cborText CodesTapeName ++ cborUInt b.Codes.length) ++
        (cborText HashesTapeName ++ cborUInt b.Hashes.length) ++
        (cborText KeysTapeName ++ cborUInt b.Keys.length) ++
        (cborText StructureTapeName ++ cborUInt b.Structure.length) ++
        (cborText ValuesTapeName ++ cborUInt b.Values.length)) ++
      b.Keys ++ b.Values ++ b.Hashes ++ b.Codes ++ b.Structure := by
  simp [WriteTo, cborMapCanon, sortEntries, insertEntry, lexLt,
    KeysTapeName, ValuesTapeName, HashesTapeName, CodesTapeName, StructureTapeName,
    List.append_assoc]

/-- Claim C10 (confirmed): the package-level `accounts.Decode` returns
`(nil, nil)` for zero-length input, and `Account.Decode` accepts every
one-byte input regardless of the byte's value, producing the empty
account (nonce 0, zero balance, empty root, empty code hash) without
error. -/
theorem c10_decode_lengths :
    accountsDecode [] = .ok none ∧
    ∀ b : Nat, Account.Decode zeroAccount [b] =
      .ok { Nonce := 0, Balance := some 0, Root := emptyRootBytes,
            CodeHash := some emptyCodeHashBytes, StorageSize := none } := by
  exact ⟨rfl, fun _ => rfl⟩

/-- Claim C7 (corrected) counterexample: for the empty trie the
serialized witness is the all-zero-length header with *no* byte after
it; it is not the header followed by the `OpEmptyRoot` structure byte
(12) that the claim asserts. -/
theorem c7_empty_witness_counterexample :
    WriteTo (MakeBlockWitness hfZero cfNil rsFalse node.nilNode) = emptyWitnessHeader ∧
    emptyWitnessHeader ≠ emptyWitnessHeader ++ [Instruction.val .OpEmptyRoot] := by
  exact ⟨rfl, by decide⟩

/-- Claim C7 (amended): for the empty trie (nil root) the witness
builder emits nothing — `makeBlockWitness` returns on the nil case
without any opcode — so the serialized witness is exactly the header map
with all five tape lengths 0 followed by no body bytes. -/
theorem c7_empty_witness_bytes (rs : List Nat → Bool) (hf : node → Bool → List Nat)
    (cf : List Nat → List Nat) :
    WriteTo (MakeBlockWitness hf cf rs node.nilNode) = emptyWitnessHeader := rfl

/-- Claim C1 (corrected) counterexample: round-tripping a concrete
one-leaf trie through `WriteTo` and `BlockWitnessToTrie` does not return
the original trie: the loader returns nil trie and nil code map. -/
theorem c1_roundtrip_counterexample :
    BlockWitnessToTrie leafWitnessBytes = .ok (none, none) ∧
    (none : Option node) ≠ some leafTrie := by
  exact ⟨rfl, by simp⟩

/-- Claim C1 (amended): `BlockWitnessToTrie` is a stub — on every input
whose header map decodes it returns nil trie, nil code map and no
error; the round-trip reconstruction of the claim does not happen. -/
theorem c1_loader_stub (bw : List Nat) (m : List (List Nat × Nat) × List Nat)
    (h : cborDecMapStrNat bw = .ok m) :
    BlockWitnessToTrie bw = .ok (none, none) := by
  simp [BlockWitnessToTrie, h]

/-- Witness for `c1_loader_stub` at the concrete one-leaf witness
bytes. -/
theorem c1_loader_stub_witness :
    BlockWitnessToTrie leafWitnessBytes = .ok (none, none) :=
  c1_loader_stub leafWitnessBytes leafWitnessHeader (by rfl)

/-- Claim C4 (corrected) counterexample: on a branch node whose prefix
is hash-only, the builder emits `OpHash` with operand 1 — structure
bytes `[6, 1]` — and not the `OpBranchHash` opcode with the occupancy
bitmap that the claim asserts. -/
theorem c4_branch_hashonly_counterexample :
    (makeBlockWitness hfZero cfNil rsTrue duo0 [] true).Structure = [6, 1] ∧
    ([6, 1] : List Nat) ≠ cborUInt (Instruction.val .OpBranchHash) ++ cborUInt 3 := by
  exact ⟨rfl, by decide⟩

/-- Claim C4 (amended): for a branch node (`duoNode` or `fullNode`) at a
prefix with `HashOnly` true, the builder supplies the node's hash to the
hashes tape and emits the `Hash` opcode with operand 1, without
recursing into children; with `HashOnly` false it recurses into the
children and emits `Branch` with the occupancy bitmap.  `BranchHash` is
never emitted (its emission sites are dead code behind an earlier
return). -/
theorem c4_branch_emission (hf : node → Bool → List Nat) (cf : List Nat → List Nat)
    (rs : List Nat → Bool) (mask : Nat) (c1 c2 : node) (children : nodeList)
    (hex : List Nat) (force : Bool) :
    (rs hex = true →
      makeBlockWitness hf cf rs (node.duoNode mask c1 c2) hex force =
        ⟨[], [], cborBytes (hashOut (hf (node.duoNode mask c1 c2) force)), [],
         cborUInt (Instruction.val .OpHash) ++ cborUInt 1⟩) ∧
    (rs hex = false →
      makeBlockWitness hf cf rs (node.duoNode mask c1 c2) hex force =
        makeBlockWitness hf cf rs c1 (hex ++ [(childrenIdx mask).1]) false ++
        makeBlockWitness hf cf rs c2 (hex ++ [(childrenIdx mask).2]) false ++
        emitOpNum .OpBranch mask) ∧
    (rs hex = true →
      makeBlockWitness hf cf rs (node.fullNode children) hex force =
        ⟨[], [], cborBytes (hashOut (hf (node.fullNode children) (hex.length = 0))), [],
         cborUInt (Instruction.val .OpHash) ++ cborUInt 1⟩) ∧
    (rs hex = false →
      makeBlockWitness hf cf rs (node.fullNode children) hex force =
        (mbwChildren hf cf rs children hex 0).1 ++
        emitOpNum .OpBranch (mbwChildren hf cf rs children hex 0).2) := by
  refine ⟨fun h => ?_, fun h => ?_, fun h => ?_, fun h => ?_⟩ <;>
    · rw [makeBlockWitness]
      simp only [h, if_true, if_false, Bool.false_eq_true, ite_true, ite_false]
      try
        show Tapes.append _ _ = _
        simp [Tapes.append, supplyHash, emitOpNum, Tapes.empty]

/-- Witness for `c4_branch_emission` at concrete inputs: the hash-only
case on `duo0` and the resolved case on `duo0`. -/
theorem c4_branch_emission_witness :
    makeBlockWitness hfZero cfNil rsTrue duo0 [] true =
      ⟨[], [], cborBytes (hashOut (hfZero duo0 true)), [],
       cborUInt (Instruction.val .OpHash) ++ cborUInt 1⟩ ∧
    makeBlockWitness hfZero cfNil rsFalse duo0 [] true =
      makeBlockWitness hfZero cfNil rsFalse (node.hashNode (List.replicate 32 1)) [0] false ++
      makeBlockWitness hfZero cfNil rsFalse (node.hashNode (List.replicate 32 2)) [1] false ++
      emitOpNum .OpBranch 3 := by
  refine ⟨(c4_branch_emission hfZero cfNil rsTrue 3 _ _ nodeList.nil [] true).1 rfl, ?_⟩
  have h := (c4_branch_emission hfZero cfNil rsFalse 3
    (node.hashNode (List.replicate 32 1)) (node.hashNode (List.replicate 32 2))
    nodeList.nil [] true).2.1 rfl
  simpa [duo0, childrenIdx] using h

/-! ### Round-trip lemmas for the RLP codec -/

theorem beToNat_append (l1 l2 : List Nat) :
    beToNat (l1 ++ l2) = beToNat l1 * 256 ^ l2.length + beToNat l2 := by
  induction l1 with
  | nil => simp [beToNat]
  | cons b t ih =>
    simp only [List.cons_append, beToNat, List.length_append, List.append_eq]
    rw [ih]
    ring

theorem beToNat_natToBEAux (fuel n : Nat) (h : n ≤ fuel) :
    beToNat (natToBEAux fuel n) = n := by
  induction fuel generalizing n with
  | zero =>
    have : n = 0 := by omega
    subst this
    rfl
  | succ f ih =>
    cases n with
    | zero => rfl
    | succ m =>
      rw [natToBEAux, beToNat_append]
      have hq : (m + 1) / 256 ≤ f := by
        have := Nat.div_lt_self (Nat.succ_pos m) (by norm_num : 1 < 256)
        omega
      rw [ih _ hq]
      simp [beToNat]
      omega

theorem beToNat_natToBE (n : Nat) : beToNat (natToBE n) = n :=
  beToNat_natToBEAux n n le_rfl

theorem natToBEAux_ne_nil (fuel n : Nat) (h1 : 1 ≤ n) (h2 : n ≤ fuel) :
    natToBEAux fuel n ≠ [] := by
  cases fuel with
  | zero => omega
  | succ f =>
    cases n with
    | zero => omega
    | succ m => rw [natToBEAux]; simp

theorem natToBE_ne_nil (n : Nat) (h : 1 ≤ n) : natToBE n ≠ [] :=
  natToBEAux_ne_nil n n h le_rfl

theorem natToBEAux_zero (fuel : Nat) : natToBEAux fuel 0 = [] := by
  cases fuel <;> rfl

theorem natToBEAux_headD (fuel n : Nat) (h2 : n ≤ fuel) :
    (natToBEAux fuel n).headD 1 ≠ 0 := by
  induction fuel generalizing n with
  | zero =>
    have : n = 0 := by omega
    subst this
    rw [natToBEAux_zero]
    simp
  | succ f ih =>
    cases n with
    | zero =>
      rw [natToBEAux_zero]
      simp
    | succ m =>
      rw [natToBEAux]
      have hq : (m + 1) / 256 ≤ f := by
        have := Nat.div_lt_self (Nat.succ_pos m) (by norm_num : 1 < 256)
        omega
      rcases h256 : (m + 1) / 256 with _ | p
      · rw [natToBEAux_zero]
        have hlt : m + 1 < 256 := by
          rcases Nat.lt_or_ge (m + 1) 256 with hc | hc
          · exact hc
          · have := Nat.one_le_div_iff (by norm_num : 0 < 256) |>.mpr hc
            omega
        simp [Nat.mod_eq_of_lt hlt]
      · have hne := natToBEAux_ne_nil f (p + 1) (by omega) (by omega)
        have hhd := ih (p + 1) (by omega)
        cases hA : natToBEAux f (p + 1) with
        | nil => exact absurd hA hne
        | cons a t =>
          rw [hA] at hhd
          simpa using hhd

theorem natToBE_headD (n : Nat) : (natToBE n).headD 1 ≠ 0 :=
  natToBEAux_headD n n le_rfl

theorem headD_zero_of_ne_nil {l : List Nat} (h : l ≠ []) : l.headD 0 = l.headD 1 := by
  cases l with
  | nil => exact absurd rfl h
  | cons a t => rfl

theorem natToBEAux_length_le (fuel n k : Nat) (hf : n ≤ fuel) (h : n < 256 ^ k) :
    (natToBEAux fuel n).length ≤ k := by
  induction fuel generalizing n k with
  | zero =>
    have : n = 0 := by omega
    subst this
    simp [natToBEAux_zero]
  | succ f ih =>
    cases n with
    | zero => simp [natToBEAux_zero]
    | succ m =>
      cases k with
      | zero => simp at h
      | succ j =>
        rw [natToBEAux]
        simp only [List.length_append, List.length_cons, List.length_nil]
        have hq : (m + 1) / 256 ≤ f := by
          have := Nat.div_lt_self (Nat.succ_pos m) (by norm_num : 1 < 256)
          omega
        have hqk : (m + 1) / 256 < 256 ^ j := by
          apply Nat.div_lt_of_lt_mul
          rw [pow_succ] at h
          omega
        have := ih ((m + 1) / 256) j hq hqk
        omega

theorem natToBE_length_le (n k : Nat) (h : n < 256 ^ k) : (natToBE n).length ≤ k :=
  natToBEAux_length_le n n k le_rfl h

theorem rlpStr_length_pos (s : List Nat) : 1 ≤ (rlpStr s).length := by
  unfold rlpStr
  split
  · omega
  · split <;> simp

theorem rlpStr_length_le (s : List Nat) (h : s.length ≤ 55) :
    (rlpStr s).length ≤ s.length + 1 := by
  unfold rlpStr
  by_cases h1 : s.length = 1 ∧ s.headD 0 < 128
  · rw [if_pos h1]
    omega
  · rw [if_neg h1, if_pos h]
    simp

theorem rlpStr_length_eq (s : List Nat) (h1 : s.length ≤ 55) (h2 : s.length ≠ 1) :
    (rlpStr s).length = s.length + 1 := by
  unfold rlpStr
  by_cases hc : s.length = 1 ∧ s.headD 0 < 128
  · exact absurd hc.1 h2
  · rw [if_neg hc, if_pos h1]
    simp

theorem rlpNat_length_le (n k : Nat) (h : n < 256 ^ k) (hk : k ≤ 55) :
    (rlpNat n).length ≤ k + 1 := by
  have h1 := natToBE_length_le n k h
  have h2 := rlpStr_length_le (natToBE n) (by omega)
  unfold rlpNat
  omega

theorem rlpListPayload_length_ge (p : List Nat) : p.length ≤ (rlpListPayload p).length := by
  unfold rlpListPayload
  split
  · simp
  · simp
    omega

theorem rlpDecStr_rlpStr (s rest : List Nat) (h : s.length ≤ 55) :
    rlpDecStr (rlpStr s ++ rest) = .ok (s, rest) := by
  unfold rlpStr
  by_cases h1 : s.length = 1 ∧ s.headD 0 < 128
  · obtain ⟨hlen, hhd⟩ := h1
    match s, hlen with
    | [x], _ =>
      simp only [List.headD] at hhd
      simp [rlpDecStr, hhd]
  · rw [if_neg h1, if_pos h]
    have hnotlt : ¬ (128 + s.length < 128) := by omega
    have hle : 128 + s.length ≤ 183 := by omega
    simp only [List.cons_append, rlpDecStr, hnotlt, if_false, hle, if_true, ite_false, ite_true]
    have hsub : 128 + s.length - 128 = s.length := by omega
    rw [hsub]
    have hlen2 : ¬ ((s ++ rest).length < s.length) := by simp
    rw [if_neg hlen2]
    have hcanon : ¬ (s.length = 1 ∧ (s ++ rest).headD 0 < 128) := by
      intro hc
      apply h1
      refine ⟨hc.1, ?_⟩
      have hne : s ≠ [] := by
        intro he
        rw [he] at hc
        simp at hc
      have : (s ++ rest).headD 0 = s.headD 0 := by
        cases s with
        | nil => exact absurd rfl hne
        | cons a t => rfl
      omega
    rw [if_neg hcanon]
    simp only [List.take_left, List.drop_left]

theorem rlpDecList_rlpListPayload (p rest : List Nat) :
    rlpDecList (rlpListPayload p ++ rest) = .ok (p, rest) := by
  unfold rlpListPayload
  by_cases h : p.length ≤ 55
  · rw [if_pos h]
    have h1 : ¬ (192 + p.length < 192) := by omega
    have h2 : 192 + p.length ≤ 247 := by omega
    simp only [List.cons_append, rlpDecList, h1, if_false, h2, if_true, ite_false, ite_true]
    have hsub : 192 + p.length - 192 = p.length := by omega
    rw [hsub]
    have hlen2 : ¬ ((p ++ rest).length < p.length) := by simp
    rw [if_neg hlen2, List.take_left, List.drop_left]
  · rw [if_neg h]
    have hp1 : 1 ≤ p.length := by omega
    have hne := natToBE_ne_nil p.length hp1
    have hll : 1 ≤ (natToBE p.length).length := by
      cases hc : natToBE p.length with
      | nil => exact absurd hc hne
      | cons a t => simp
    have h1 : ¬ (247 + (natToBE p.length).length < 192) := by omega
    have h2 : ¬ (247 + (natToBE p.length).length ≤ 247) := by omega
    simp only [List.cons_append, rlpDecList, h1, if_false, h2, ite_false]
    have hsub : 247 + (natToBE p.length).length - 247 = (natToBE p.length).length := by omega
    rw [hsub, List.append_assoc]
    have hrlen : ¬ ((natToBE p.length ++ (p ++ rest)).length < (natToBE p.length).length) := by
      simp
    rw [if_neg hrlen, List.take_left, List.drop_left]
    have hhd : ¬ ((natToBE p.length).headD 0 = 0) := by
      rw [headD_zero_of_ne_nil hne]
      exact natToBE_headD p.length
    rw [if_neg hhd, beToNat_natToBE]
    rw [if_neg (by omega : ¬ (p.length ≤ 55))]
    have hlen3 : ¬ ((p ++ rest).length < p.length) := by simp
    rw [if_neg hlen3, List.take_left, List.drop_left]

theorem rlpDecNat_rlpNat (n : Nat) (rest : List Nat) (h : (natToBE n).length ≤ 55) :
    rlpDecNat (rlpNat n ++ rest) = .ok (n, rest) := by
  unfold rlpNat rlpDecNat
  rw [rlpDecStr_rlpStr _ _ h]
  dsimp only
  rw [if_neg (natToBE_headD n), beToNat_natToBE]

theorem rlpDecUint64_rlpNat (n : Nat) (rest : List Nat) (h : n < 2 ^ 64) :
    rlpDecUint64 (rlpNat n ++ rest) = .ok (n, rest) := by
  have hlen : (natToBE n).length ≤ 8 :=
    natToBE_length_le n 8 (by norm_num at h ⊢; omega)
  unfold rlpNat rlpDecUint64
  rw [rlpDecStr_rlpStr _ _ (by omega)]
  dsimp only
  rw [if_neg (natToBE_headD n), if_neg (by omega : ¬ (8 < (natToBE n).length)),
    beToNat_natToBE]

theorem rlpDecHash_rlpStr (s rest : List Nat) (h : s.length = 32) :
    rlpDecHash (rlpStr s ++ rest) = .ok (s, rest) := by
  unfold rlpDecHash
  rw [rlpDecStr_rlpStr _ _ (by omega)]
  dsimp only
  rw [if_pos h]

theorem rlpDecExtAccount_enc (n b : Nat) (hn : n < 2 ^ 64) (hb : b < 256 ^ 44) :
    rlpDecExtAccount (rlpExtAccount n b) = .ok (n, b) := by
  unfold rlpExtAccount rlpDecExtAccount
  have hlist := rlpDecList_rlpListPayload (rlpNat n ++ rlpNat b) []
  rw [List.append_nil] at hlist
  rw [hlist]
  dsimp only
  rw [if_neg (by simp)]
  rw [rlpDecUint64_rlpNat n (rlpNat b) hn]
  dsimp only
  have hblen : (natToBE b).length ≤ 55 := by
    have := natToBE_length_le b 44 hb
    omega
  have h2 := rlpDecNat_rlpNat b [] hblen
  rw [List.append_nil] at h2
  rw [h2]
  dsimp only
  rw [if_neg (by simp)]

theorem rlpDecAccount4_enc (n b : Nat) (root ch : List Nat)
    (hn : n < 2 ^ 64) (hb : b < 256 ^ 44) (hr : root.length = 32) (hc : ch.length = 32) :
    rlpDecAccount4 (rlpAccount4 n b root ch) = .ok (n, b, root, ch) := by
  unfold rlpAccount4 rlpDecAccount4
  have hlist := rlpDecList_rlpListPayload
    (rlpNat n ++ rlpNat b ++ rlpStr root ++ rlpStr ch) []
  rw [List.append_nil] at hlist
  rw [hlist]
  dsimp only
  rw [if_neg (by simp)]
  rw [List.append_assoc, List.append_assoc]
  rw [rlpDecUint64_rlpNat n _ hn]
  dsimp only
  have hblen : (natToBE b).length ≤ 55 := by
    have := natToBE_length_le b 44 hb
    omega
  rw [rlpDecNat_rlpNat b _ hblen]
  dsimp only
  rw [rlpDecHash_rlpStr root _ hr]
  dsimp only
  have hch := rlpDecStr_rlpStr ch [] (by omega)
  rw [List.append_nil] at hch
  rw [hch]
  dsimp only
  rw [if_neg (by simp)]

theorem rlpListPayload_length_short (p : List Nat) (h : p.length ≤ 55) :
    (rlpListPayload p).length = p.length + 1 := by
  unfold rlpListPayload
  rw [if_pos h]
  simp

/-- Claim C9 (corrected) counterexample: for the account with zero
nonce, zero balance, *all-zero* storage root and empty code hash, the
encoding is the one-byte `0xC0` form, and decoding it yields the
canonical empty root — not the original all-zero root. -/
theorem c9_roundtrip_counterexample :
    zeroRootAccount.Encode false = .ok [192] ∧
    Account.Decode zeroAccount [192] =
      .ok { Nonce := 0, Balance := some 0, Root := emptyRootBytes,
            CodeHash := some emptyCodeHashBytes, StorageSize := none } ∧
    emptyRootBytes ≠ zeroRootAccount.Root := by
  refine ⟨rfl, rfl, by decide⟩

/-- Claim C9 (amended): `Decode ∘ Encode` is the identity on the
account's nonce, balance, storage root and code hash for every account
in canonical form: non-nil balance below 2^352, nonce in `uint64`
range, non-nil 32-byte code hash, 32-byte root that equals the
empty-root constant whenever it is "empty" (the encoder canonicalizes
an all-zero root to the empty root, so a non-canonical root is not
recovered), and no storage-size extension.  This includes the special
one-byte `0xC0` encoding. -/
theorem c9_account_roundtrip (a : Account) (b : Nat) (ch : List Nat) (flag : Bool)
    (enc : List Nat)
    (hb : a.Balance = some b) (hblt : b < 256 ^ 44) (hn : a.Nonce < 2 ^ 64)
    (hch : a.CodeHash = some ch) (hchlen : ch.length = 32) (hrlen : a.Root.length = 32)
    (hre : a.IsEmptyRoot = true → a.Root = emptyRootBytes)
    (hss : a.StorageSize = none)
    (henc : a.Encode flag = .ok enc) :
    Account.Decode zeroAccount enc = .ok a := by
  obtain ⟨N, B, R, CH, SS⟩ := a
  simp only at hb hch hss hrlen hre hn
  subst hb hch hss
  have hn' : N < 256 ^ 8 := by norm_num at hn ⊢; omega
  have hche : Account.IsEmptyCodeHash ⟨N, some b, R, some ch, none⟩ = decide (ch = emptyCodeHashBytes) := rfl
  unfold Account.Encode at henc
  split at henc
  · -- empty code hash and empty root
    rename_i hEmpty
    have hch0 : ch = emptyCodeHashBytes := by
      have := hEmpty.1
      simp [Account.IsEmptyCodeHash] at this
      exact this
    have hR0 : R = emptyRootBytes := by
      apply hre
      exact hEmpty.2
    subst hch0 hR0
    split at henc
    · -- the one-byte 0xC0 encoding
      rename_i hzero
      have hb0 : b = 0 := by
        rcases hzero.1 with hc | hc
        · exact absurd hc (by simp)
        · simpa using hc
      have hN0 : N = 0 := hzero.2
      subst hb0 hN0
      obtain rfl : [192] = enc := Except.ok.inj henc
      rfl
    · -- the ExtAccount encoding
      dsimp only at henc
      obtain rfl : rlpExtAccount N b = enc := Except.ok.inj henc
      have hlN := rlpNat_length_le N 8 hn' (by omega)
      have hlB := rlpNat_length_le b 44 hblt (by omega)
      have hpl : (rlpNat N ++ rlpNat b).length ≤ 54 := by
        simp only [List.length_append]
        omega
      have hplpos : 2 ≤ (rlpNat N ++ rlpNat b).length := by
        have h1 := rlpStr_length_pos (natToBE N)
        have h2 := rlpStr_length_pos (natToBE b)
        simp only [List.length_append, rlpNat] at *
        omega
      have hlen : (rlpExtAccount N b).length = (rlpNat N ++ rlpNat b).length + 1 := by
        unfold rlpExtAccount
        exact rlpListPayload_length_short _ (by omega)
      unfold Account.Decode
      rw [if_neg (by omega), if_neg (by omega), if_pos (by omega)]
      rw [rlpDecExtAccount_enc N b hn hblt]
      rfl
  · -- the full four-field encoding
    rename_i hNotEmpty
    dsimp only at henc
    have hroot' : (if Account.IsEmptyRoot ⟨N, some b, R, some ch, none⟩ = true
        then emptyRootBytes else R) = R := by
      split
      · rename_i hc
        exact (hre hc).symm
      · rfl
    have hch' : (if Account.IsEmptyCodeHash ⟨N, some b, R, some ch, none⟩ = true
        then emptyCodeHashBytes else (some ch).getD []) = ch := by
      split
      · rename_i hc
        simp [Account.IsEmptyCodeHash] at hc
        exact hc.symm
      · rfl
    rw [hroot', hch'] at henc
    have henc' : enc = rlpAccount4 N b R ch := by
      cases flag
      · exact (Except.ok.inj henc).symm
      · exact (Except.ok.inj henc).symm
    subst henc'
    have hr33 : (rlpStr R).length = 33 := by
      have := rlpStr_length_eq R (by omega) (by omega)
      omega
    have hc33 : (rlpStr ch).length = 33 := by
      have := rlpStr_length_eq ch (by omega) (by omega)
      omega
    have hplge : 68 ≤ (rlpNat N ++ rlpNat b ++ rlpStr R ++ rlpStr ch).length := by
      have h1 := rlpStr_length_pos (natToBE N)
      have h2 := rlpStr_length_pos (natToBE b)
      simp only [List.length_append, rlpNat] at *
      omega
    have hlenge : 68 ≤ (rlpAccount4 N b R ch).length := by
      have := rlpListPayload_length_ge (rlpNat N ++ rlpNat b ++ rlpStr R ++ rlpStr ch)
      unfold rlpAccount4
      omega
    unfold Account.Decode
    rw [if_neg (by omega), if_neg (by omega), if_neg (by omega)]
    rw [rlpDecAccount4_enc N b R ch hn hblt hrlen hchlen]

/-- Witness for `c9_account_roundtrip` at a concrete canonical
account. -/
theorem c9_account_roundtrip_witness :
    Account.Decode zeroAccount [194, 1, 5] = .ok acct1 :=
  c9_account_roundtrip acct1 5 emptyCodeHashBytes false [194, 1, 5]
    rfl (by norm_num) (by decide) rfl (by rfl) (by rfl)
    (fun _ => rfl) rfl (by rfl)

/-! ### State-preservation lemmas for the resolver -/

@[simp] theorem withVertical_accounts (tr : TRState) (f : Nat → Nat → node) :
    (withVertical tr f).accounts = tr.accounts := rfl

@[simp] theorem withVertical_requests (tr : TRState) (f : Nat → Nat → node) :
    (withVertical tr f).requests = tr.requests := rfl

@[simp] theorem withNodeStack_accounts (tr : TRState) (f : Nat → SNode) :
    (withNodeStack tr f).accounts = tr.accounts := rfl

@[simp] theorem withNodeStack_requests (tr : TRState) (f : Nat → SNode) :
    (withNodeStack tr f).requests = tr.requests := rfl

@[simp] theorem withFillCount_accounts (tr : TRState) (f : Nat → Nat) :
    (withFillCount tr f).accounts = tr.accounts := rfl

@[simp] theorem withFillCount_requests (tr : TRState) (f : Nat → Nat) :
    (withFillCount tr f).requests = tr.requests := rfl

@[simp] theorem clearAbove_accounts (tr : TRState) (l : Nat) :
    (clearAbove tr l).accounts = tr.accounts := rfl

@[simp] theorem clearAbove_requests (tr : TRState) (l : Nat) :
    (clearAbove tr l).requests = tr.requests := rfl

@[simp] theorem foldPromote_accounts (tr : TRState) (level keynibble : Nat) :
    (foldPromote tr level keynibble).accounts = tr.accounts := by
  unfold foldPromote
  dsimp only
  split <;> rfl

@[simp] theorem foldPromote_requests (tr : TRState) (level keynibble : Nat) :
    (foldPromote tr level keynibble).requests = tr.requests := by
  unfold foldPromote
  dsimp only
  split <;> rfl

@[simp] theorem foldStore_accounts (tr : TRState) (level keynibble : Nat)
    (orp : Bool) (sh : List Nat) :
    (foldStore tr level keynibble orp sh).accounts = tr.accounts := by
  unfold foldStore
  dsimp only
  repeat' split
  all_goals rfl

@[simp] theorem foldStore_requests (tr : TRState) (level keynibble : Nat)
    (orp : Bool) (sh : List Nat) :
    (foldStore tr level keynibble orp sh).requests = tr.requests := by
  unfold foldStore
  dsimp only
  repeat' split
  all_goals rfl

@[simp] theorem foldFinish_accounts (req : ReqS) (level : Nat) (tr : TRState) :
    (foldFinish req level tr).accounts = tr.accounts := by
  unfold foldFinish
  dsimp only
  split <;> rfl

@[simp] theorem foldFinish_requests (req : ReqS) (level : Nat) (tr : TRState) :
    (foldFinish req level tr).requests = tr.requests := by
  unfold foldFinish
  dsimp only
  split <;> rfl

@[simp] theorem foldOneLevel_accounts (hf : node → Bool → List Nat) (hex : List Nat)
    (rhPrefixLen : Nat) (tr : TRState) (level : Nat) :
    ((foldOneLevel hf hex rhPrefixLen tr level).2).accounts = tr.accounts := by
  unfold foldOneLevel
  dsimp only
  repeat' split
  all_goals simp

@[simp] theorem foldOneLevel_requests (hf : node → Bool → List Nat) (hex : List Nat)
    (rhPrefixLen : Nat) (tr : TRState) (level : Nat) :
    ((foldOneLevel hf hex rhPrefixLen tr level).2).requests = tr.requests := by
  unfold foldOneLevel
  dsimp only
  repeat' split
  all_goals simp

@[simp] theorem foldLevels_accounts (hf : node → Bool → List Nat) (hex : List Nat)
    (rhPrefixLen : Nat) :
    ∀ (count level : Nat) (tr : TRState),
      ((foldLevels hf hex rhPrefixLen count level tr).2).accounts = tr.accounts := by
  intro count
  induction count with
  | zero => intro level tr; rfl
  | succ c ih =>
    intro level tr
    unfold foldLevels
    cases hfo : foldOneLevel hf hex rhPrefixLen tr level with
    | mk e tr2 =>
      have hpres := congrArg (fun p => (Prod.snd p).accounts) hfo
      dsimp only at hpres
      rw [foldOneLevel_accounts] at hpres
      cases e with
      | none =>
        dsimp only
        rw [ih (level - 1) tr2]
        exact hpres.symm
      | some err => exact hpres.symm

@[simp] theorem foldLevels_requests (hf : node → Bool → List Nat) (hex : List Nat)
    (rhPrefixLen : Nat) :
    ∀ (count level : Nat) (tr : TRState),
      ((foldLevels hf hex rhPrefixLen count level tr).2).requests = tr.requests := by
  intro count
  induction count with
  | zero => intro level tr; rfl
  | succ c ih =>
    intro level tr
    unfold foldLevels
    cases hfo : foldOneLevel hf hex rhPrefixLen tr level with
    | mk e tr2 =>
      have hpres := congrArg (fun p => (Prod.snd p).requests) hfo
      dsimp only at hpres
      rw [foldOneLevel_requests] at hpres
      cases e with
      | none =>
        dsimp only
        rw [ih (level - 1) tr2]
        exact hpres.symm
      | some err => exact hpres.symm

theorem fpkFold_accounts (hf : node → Bool → List Nat) (tr : TRState)
    (k : Option (List Nat)) :
    ((fpkFold hf tr k).2).accounts = tr.accounts := by
  unfold fpkFold
  dsimp only
  split
  · rename_i e tr2 heq
    have hpres := congrArg (fun p => (Prod.snd p).accounts) heq
    dsimp only at hpres
    rw [foldLevels_accounts] at hpres
    exact hpres.symm
  · rename_i tr2 heq
    have hpres := congrArg (fun p => (Prod.snd p).accounts) heq
    dsimp only at hpres
    rw [foldLevels_accounts] at hpres
    exact hpres.symm

theorem fpkFold_requests (hf : node → Bool → List Nat) (tr : TRState)
    (k : Option (List Nat)) :
    ((fpkFold hf tr k).2).requests = tr.requests := by
  unfold fpkFold
  dsimp only
  split
  · rename_i e tr2 heq
    have hpres := congrArg (fun p => (Prod.snd p).requests) heq
    dsimp only at hpres
    rw [foldLevels_requests] at hpres
    exact hpres.symm
  · rename_i tr2 heq
    have hpres := congrArg (fun p => (Prod.snd p).requests) heq
    dsimp only at hpres
    rw [foldLevels_requests] at hpres
    exact hpres.symm

theorem fpkFinish_accounts (hf : node → Bool → List Nat) (tr : TRState) :
    ((fpkFinish hf tr).2).accounts = tr.accounts := by
  unfold fpkFinish clearAllLevels setCurrentReq
  dsimp only
  repeat' split
  all_goals rfl

theorem finishPreviousKey_accounts (hf : node → Bool → List Nat) (tr : TRState)
    (k : Option (List Nat)) :
    ((finishPreviousKey hf tr k).2).accounts = tr.accounts := by
  unfold finishPreviousKey
  cases hf2 : fpkFold hf tr k with
  | mk e tr2 =>
    have hfold := congrArg (fun p => (Prod.snd p).accounts) hf2
    dsimp only at hfold
    rw [fpkFold_accounts] at hfold
    cases e with
    | none =>
      cases k with
      | none =>
        dsimp only
        rw [fpkFinish_accounts]
        exact hfold.symm
      | some kk => exact hfold.symm
    | some err => exact hfold.symm

@[simp] theorem withKeySetIdx_accounts (tr : TRState) (b : Bool) (i : Nat) :
    (withKeySetIdx tr b i).accounts = tr.accounts := rfl

@[simp] theorem withKeySetIdx_keySet (tr : TRState) (b : Bool) (i : Nat) :
    (withKeySetIdx tr b i).keySet = b := rfl

@[simp] theorem withKeyIdx_accounts (tr : TRState) (i : Nat) :
    (withKeyIdx tr i).accounts = tr.accounts := rfl

@[simp] theorem withKeyIdx_keySet (tr : TRState) (i : Nat) :
    (withKeyIdx tr i).keySet = tr.keySet := rfl

@[simp] theorem withKey_accounts (tr : TRState) (k : List Nat) :
    (withKey tr k).accounts = tr.accounts := rfl

@[simp] theorem withValueKeySet_value (tr : TRState) (v : List Nat) :
    (withValueKeySet tr v).value = v := rfl

/-- Claim C3 (confirmed): in account mode, `Walker` normalizes every
non-empty raw value to the canonical full account RLP before remembering
it: the stored `tr.value` agrees with the spec's normalization rule
(fabricate for one byte, decode-and-fill below 60 bytes, copy
otherwise). -/
theorem c3_walker_normalizes_account_value (hf : node → Bool → List Nat) (tr : TRState)
    (keyIdx : Nat) (k v : List Nat) (bres : Bool) (tr2 : TRState)
    (hacc : tr.accounts = true) (hv : v ≠ [])
    (hw : Walker hf tr keyIdx k v = (bres, none, tr2)) :
    specNormalizeAccountValue v = .ok tr2.value := by
  have hvpos : 0 < v.length := List.length_pos.mpr hv
  unfold Walker at hw
  dsimp only at hw
  split at hw
  · simp at hw
  · rename_i trA heqA
    have haccA : trA.accounts = true := by
      split at heqA
      · split at heqA
        · split at heqA
          · simp at heqA
          · rename_i tr1 heq1
            have h1 := congrArg (fun p => (Prod.snd p).accounts) heq1
            dsimp only at h1
            rw [finishPreviousKey_accounts] at h1
            injection heqA with hx h2
            subst h2
            rw [withKeySetIdx_accounts, ← h1]
            exact hacc
        · injection heqA with hx h2
          subst h2
          rw [withKeyIdx_accounts]
          exact hacc
      · injection heqA with hx h2
        subst h2
        exact hacc
    rw [if_pos hvpos] at hw
    split at hw
    · simp at hw
    · rename_i trB heqB
      have haccB : trB.accounts = true := by
        split at heqB
        · split at heqB
          · simp at heqB
          · rename_i tr1 heq1
            have h1 := congrArg (fun p => (Prod.snd p).accounts) heq1
            dsimp only at h1
            rw [finishPreviousKey_accounts] at h1
            injection heqB with hx h2
            subst h2
            rw [← h1]
            exact haccA
        · injection heqB with hx h2
          subst h2
          exact haccA
      simp only [withKey_accounts, haccB, if_true] at hw
      by_cases h1 : v.length = 1
      · rw [if_pos h1] at hw
        injection hw with hb hrest
        injection hrest with he htr
        subst htr
        simp [specNormalizeAccountValue, h1]
      · rw [if_neg h1] at hw
        by_cases h2 : v.length < 60
        · rw [if_pos h2] at hw
          split at hw
          · simp at hw
          · rename_i nonce balance hdec
            injection hw with hb hrest
            injection hrest with he htr
            subst htr
            simp [specNormalizeAccountValue, h1, h2, hdec]
        · rw [if_neg h2] at hw
          injection hw with hb hrest
          injection hrest with he htr
          subst htr
          simp [specNormalizeAccountValue, h1, h2]

/-- Witness for `c3_walker_normalizes_account_value`: a one-byte value
in a quiescent account-mode state. -/
theorem c3_walker_normalizes_witness :
    specNormalizeAccountValue [7] =
      .ok (Walker hfZero trWalker 0 [0] [7]).2.2.value :=
  c3_walker_normalizes_account_value hfZero trWalker 0 [0] [7]
    (Walker hfZero trWalker 0 [0] [7]).1 (Walker hfZero trWalker 0 [0] [7]).2.2
    rfl (by decide) (by rfl)

/-- Claim C2 (confirmed): when the hash of the root built at end of
stream differs from the request's expected 32-byte hash,
`finishPreviousKey` (called with `curr == nil`) returns the
hash-mismatch error, and the original trie is untouched: the requests —
including `req.resolved`, the `resolveParent` slot and `req.t.root` —
are exactly those before the call. -/
theorem c2_hash_mismatch_leaves_trie (hf : node → Bool → List Nat) (tr tr1 : TRState)
    (root : node)
    (h1 : fpkFold hf tr none = (none, tr1))
    (h2 : fpkRoot tr1 = some root)
    (h3 : (hf root ((currentReq tr1).resolvePos = 0)).length = 32)
    (h4 : (currentReq tr1).resolveHash ≠ hashOut (hf root ((currentReq tr1).resolvePos = 0))) :
    finishPreviousKey hf tr none = (some RErr.wrongHash, tr1) ∧
    tr1.requests = tr.requests := by
  constructor
  · unfold finishPreviousKey
    rw [h1]
    dsimp only
    unfold fpkFinish
    rw [h2]
    dsimp only
    rw [if_pos h3, if_pos h4]
  · have hpres := congrArg (fun p => (Prod.snd p).requests) h1
    dsimp only at hpres
    rw [fpkFold_requests] at hpres
    exact hpres.symm

/-- Witness for `c2_hash_mismatch_leaves_trie` at a concrete one-key
state whose dummy hash differs from the expected hash. -/
theorem c2_hash_mismatch_witness :
    finishPreviousKey hfZero trC2 none =
      (some RErr.wrongHash, (fpkFold hfZero trC2 none).2) ∧
    (fpkFold hfZero trC2 none).2.requests = trC2.requests :=
  c2_hash_mismatch_leaves_trie hfZero trC2 (fpkFold hfZero trC2 none).2
    (((fpkFold hfZero trC2 none).2.nodeStack 0).toNode)
    (by rfl) (by rfl) (by rfl) (by decide)

@[simp] theorem withVertical_vertical (tr : TRState) (f : Nat → Nat → node) :
    (withVertical tr f).vertical = f := rfl

@[simp] theorem withNodeStack_vertical (tr : TRState) (f : Nat → SNode) :
    (withNodeStack tr f).vertical = tr.vertical := rfl

@[simp] theorem withFillCount_vertical (tr : TRState) (f : Nat → Nat) :
    (withFillCount tr f).vertical = tr.vertical := rfl

@[simp] theorem withNodeStack_fillCount (tr : TRState) (f : Nat → SNode) :
    (withNodeStack tr f).fillCount = tr.fillCount := rfl

@[simp] theorem withVertical_fillCount (tr : TRState) (f : Nat → Nat → node) :
    (withVertical tr f).fillCount = tr.fillCount := rfl

@[simp] theorem withNodeStack_hashes (tr : TRState) (f : Nat → SNode) :
    (withNodeStack tr f).hashes = tr.hashes := rfl

@[simp] theorem withVertical_hashes (tr : TRState) (f : Nat → Nat → node) :
    (withVertical tr f).hashes = tr.hashes := rfl

/-- `foldFinish` only touches `fillCount` at `level` and resets
`level + 1`, so the vertical slot written at `level` survives it. -/
theorem foldFinish_vertical_at (req : ReqS) (l j : Nat) (tr : TRState) :
    (foldFinish req l tr).vertical l j = tr.vertical l j := by
  unfold foldFinish clearAbove
  dsimp only
  split
  · simp only [withVertical_vertical, withFillCount_vertical, withNodeStack_vertical]
    rw [if_neg (by omega : ¬ (l = l + 1))]
  · simp only [withFillCount_vertical]

/-- The node `foldStore` leaves in the vertical slot `(level, keynibble)`:
the materialized `Duo`/`Full` copy when the retention condition holds,
the 32-byte hash reference otherwise. -/
theorem foldStore_vertical_at (tr : TRState) (level keynibble : Nat) (orp : Bool)
    (sh : List Nat) :
    (foldStore tr level keynibble orp sh).vertical level keynibble =
      (if orp || (tr.hashes && level == 5) then
        (if tr.fillCount (level + 1) = 2 then duoCopyOf (tr.vertical (level + 1))
         else fullOf (tr.vertical (level + 1)))
      else node.hashNode sh) := by
  unfold foldStore
  dsimp only
  split_ifs <;>
    simp_all [upd2, withNodeStack_vertical, withVertical_vertical, withNodeStack_hashes,
      withNodeStack_fillCount]

/-- Claim C8 (confirmed): in the folding loop of `finishPreviousKey`,
a finalized level whose subtree has fill count at least 2 stores a
materialized branch node into the parent slot (a `Duo` copy for exactly
two children, a `Full` copy otherwise) if and only if the prefix is on
a resolving path or the resolver is in hashes mode at level 5; in every
other case only the 32-byte hash reference is stored. -/
theorem c8_fold_materialization (hf : node → Bool → List Nat) (hex : List Nat)
    (rhPrefixLen : Nat) (tr : TRState) (level : Nat)
    (hfc : 2 ≤ tr.fillCount (level + 1))
    (hlen : (hf (fullOf (tr.vertical (level + 1))) false).length = 32) :
    (foldOneLevel hf hex rhPrefixLen tr level).1 = none ∧
    (isBranchNode ((foldOneLevel hf hex rhPrefixLen tr level).2.vertical level
        (hex.getD level 0)) = true ↔
      (level < rhPrefixLen ∨ (tr.hashes = true ∧ level = 5))) ∧
    (¬ (level < rhPrefixLen ∨ (tr.hashes = true ∧ level = 5)) →
      (foldOneLevel hf hex rhPrefixLen tr level).2.vertical level (hex.getD level 0) =
        node.hashNode (hashOut (hf (fullOf (tr.vertical (level + 1))) false))) ∧
    ((level < rhPrefixLen ∨ (tr.hashes = true ∧ level = 5)) →
      (foldOneLevel hf hex rhPrefixLen tr level).2.vertical level (hex.getD level 0) =
        (if tr.fillCount (level + 1) = 2 then duoCopyOf (tr.vertical (level + 1))
         else fullOf (tr.vertical (level + 1)))) := by
  have hne : ¬ tr.fillCount (level + 1) = 1 := by omega
  have hnl : ¬ (hf (fullOf (tr.vertical (level + 1))) false).length < 32 := by omega
  have hONE : foldOneLevel hf hex rhPrefixLen tr level =
      (none, foldFinish (currentReq tr) level
        (foldStore tr level (hex.getD level 0) (decide (level < rhPrefixLen))
          (hashOut (hf (fullOf (tr.vertical (level + 1))) false)))) := by
    unfold foldOneLevel
    dsimp only
    rw [if_neg hne, if_neg hnl]
  rw [hONE]
  dsimp only
  rw [foldFinish_vertical_at, foldStore_vertical_at]
  by_cases hcond : level < rhPrefixLen ∨ (tr.hashes = true ∧ level = 5)
  · have hb : (decide (level < rhPrefixLen) || (tr.hashes && level == 5)) = true := by
      rcases hcond with hc | ⟨hh, h5⟩
      · simp [hc]
      · simp [hh, h5]
    rw [if_pos hb]
    refine ⟨rfl, ?_, fun hc => absurd hcond hc, fun _ => rfl⟩
    constructor
    · intro _
      exact hcond
    · intro _
      split <;> rfl
  · have hb : ¬ ((decide (level < rhPrefixLen) || (tr.hashes && level == 5)) = true) := by
      intro hc
      apply hcond
      rcases Bool.or_eq_true _ _ |>.mp hc with hc1 | hc2
      · exact Or.inl (by simpa using hc1)
      · rcases Bool.and_eq_true _ _ |>.mp hc2 with ⟨ha, hb5⟩
        exact Or.inr ⟨ha, by simpa using hb5⟩
    rw [if_neg hb]
    refine ⟨rfl, ?_, fun _ => rfl, fun hc => absurd hc hcond⟩
    simp [isBranchNode, hcond]

/-- Witness for `c8_fold_materialization` at a concrete two-child
subtree off the resolving path: only the hash reference is stored. -/
theorem c8_fold_materialization_witness :
    (foldOneLevel hfZero [3] 0 trC8 0).1 = none ∧
    (isBranchNode ((foldOneLevel hfZero [3] 0 trC8 0).2.vertical 0
        (([3] : List Nat).getD 0 0)) = true ↔
      (0 < 0 ∨ (trC8.hashes = true ∧ 0 = 5))) ∧
    (¬ (0 < 0 ∨ (trC8.hashes = true ∧ 0 = 5)) →
      (foldOneLevel hfZero [3] 0 trC8 0).2.vertical 0 (([3] : List Nat).getD 0 0) =
        node.hashNode (hashOut (hfZero (fullOf (trC8.vertical (0 + 1))) false))) ∧
    ((0 < 0 ∨ (trC8.hashes = true ∧ 0 = 5)) →
      (foldOneLevel hfZero [3] 0 trC8 0).2.vertical 0 (([3] : List Nat).getD 0 0) =
        (if trC8.fillCount (0 + 1) = 2 then duoCopyOf (trC8.vertical (0 + 1))
         else fullOf (trC8.vertical (0 + 1)))) :=
  c8_fold_materialization hfZero [3] 0 trC8 0 (by decide) (by rfl)

end TG